import Mathlib

/-!
Verification of the pure VA-API H.265 decoder (`pure_vaapi_decoder.cpp`).

The decoder is embedded shallowly:
* the byte stream is an `Array Nat` (each entry a byte value), the stream cursor a `Nat`;
* the Annex-B scanner `findNextNAL`, the access-unit assembler inside `decodeFrame`,
  the submission pipeline `decodeFrameInternal` and the surface exporter
  `getSurfaceData` are translated into pure Lean functions;
* hardware calls are modelled by an oracle (`HwOracle`) assigning each driver entry
  point a success/failure status (failure carries the driver status string) and a
  mapped image content, and the submission pipeline additionally returns the trace of
  the driver calls it performed.

Loops that advance a cursor through the buffer are written with an explicit fuel
argument (structural recursion); the fuel is always instantiated so that it dominates
the loop measure `buf.size - pos`, and unfolding lemmas recover the loop equations.
-/

/-- NAL type extraction: `(nal_header >> 1) & 0x3F`. -/
def nalType (b : Nat) : Nat := (b >>> 1) &&& 63

/-- 4-byte start code test `00 00 00 01` at index `i` (reads are guarded by
`i + 3 < buf.size` at every call site, exactly as in the C++ loop). -/
def startCode4 (buf : Array Nat) (i : Nat) : Bool :=
  buf.getD i 255 == 0 && buf.getD (i+1) 255 == 0 &&
  buf.getD (i+2) 255 == 0 && buf.getD (i+3) 255 == 1

/-- 3-byte start code test `00 00 01` at index `i`. -/
def startCode3 (buf : Array Nat) (i : Nat) : Bool :=
  buf.getD i 255 == 0 && buf.getD (i+1) 255 == 0 && buf.getD (i+2) 255 == 1

/-- The scanning loop `for (i = pos; i + 3 < size; i++)` testing for a 4-byte or
3-byte start code at `i`; returns the first hit.  Structural on the fuel, which the
wrapper `scanStart` instantiates with the exact remaining length. -/
def scanGo (buf : Array Nat) : Nat → Nat → Option Nat
  | 0, _ => none
  | fuel + 1, i =>
    if i + 3 < buf.size then
      if startCode4 buf i || startCode3 buf i then some i
      else scanGo buf fuel (i + 1)
    else none

/-- First position `p ≥ i` with `p + 3 < buf.size` carrying a start code. -/
def scanStart (buf : Array Nat) (i : Nat) : Option Nat :=
  scanGo buf (buf.size - i) i

/-- The `nal_end` search of `findNextNAL`: position of the next start code from
`s`, or the stream length if none is found. -/
def endScan (buf : Array Nat) (s : Nat) : Nat :=
  match scanStart buf s with
  | some q => q
  | none => buf.size

/-- `PureVaapiDecoder::findNextNAL`: from cursor `pos`, find the next start code,
skip it (`nal_start` = first payload byte, also the new cursor), then scan for the
following start code to set `nal_end` (stream length if none).  Returns
`some (nal_start, nal_end)`, or `none` at end of stream. -/
def findNextNAL (buf : Array Nat) (pos : Nat) : Option (Nat × Nat) :=
  if pos < buf.size then
    match scanStart buf pos with
    | none => none
    | some p =>
      if startCode4 buf p then some (p + 4, endScan buf (p + 4))
      else some (p + 3, endScan buf (p + 3))
  else none

/-- The bytes of `buf` in the half-open range `[a, b)`. -/
def segBytes (buf : Array Nat) (a b : Nat) : List Nat :=
  (List.range (b - a)).map (fun k => buf.getD (a + k) 0)

/-- Repeated application of `findNextNAL`, each call resuming from the returned
`nal_start` (the cursor `findNextNAL` leaves behind); fuel-structural loop body. -/
def traceGo (buf : Array Nat) : Nat → Nat → List (Nat × Nat)
  | 0, _ => []
  | fuel + 1, pos =>
    match findNextNAL buf pos with
    | none => []
    | some (s, e) => (s, e) :: traceGo buf fuel s

/-- All NAL ranges produced by exhaustively iterating `findNextNAL` from `pos`. -/
def framerTrace (buf : Array Nat) (pos : Nat) : List (Nat × Nat) :=
  traceGo buf (buf.size + 1) pos

/-- How the access-unit collection loop in `decodeFrame` terminated. -/
inductive AUEnd where
  | slice : AUEnd
  | eof : AUEnd
deriving Repr, DecidableEq

/-- The NAL-collection loop of `PureVaapiDecoder::decodeFrame`: repeatedly call
`findNextNAL`; on end of stream return `none` if nothing was collected (the
`EndOfStream` result) and otherwise the collected list; push every NAL whose start
lies inside the buffer; stop as soon as a pushed NAL has type in `[0, 9]`.
Also returns the final cursor. -/
def asmGo (buf : Array Nat) : Nat → Nat → List (Nat × Nat) →
    Option (List (Nat × Nat) × AUEnd) × Nat
  | 0, pos, acc => (if acc.isEmpty then none else some (acc, AUEnd.eof), pos)
  | fuel + 1, pos, acc =>
    match findNextNAL buf pos with
    | none => (if acc.isEmpty then none else some (acc, AUEnd.eof), pos)
    | some (s, e) =>
      if s < buf.size then
        if nalType (buf.getD s 0) ≤ 9 then (some (acc ++ [(s, e)], AUEnd.slice), s)
        else asmGo buf fuel s (acc ++ [(s, e)])
      else asmGo buf fuel s acc

/-- The frame assembler of `decodeFrame` started with an empty collection. -/
def assembleAU (buf : Array Nat) (pos : Nat) :
    Option (List (Nat × Nat) × AUEnd) × Nat :=
  asmGo buf (buf.size + 1) pos []

/-! ## Submission pipeline model -/

/-- The fields `decodeFrameInternal` writes into a `VASliceParameterBufferHEVC`. -/
structure SliceParamRec where
  slice_data_size : Nat
  slice_data_offset : Nat
  flag_all_data : Bool
  slice_segment_address : Nat
deriving Repr, DecidableEq

/-- Driver calls performed by the submission pipeline that carry decode payload
(`vaBeginPicture`, the three `vaRenderPicture` sites, `vaEndPicture`,
`vaSyncSurface`). -/
inductive HwEvent where
  | beginPic : HwEvent
  | picParams : HwEvent
  | sliceParams : SliceParamRec → HwEvent
  | sliceData : List Nat → HwEvent
  | endPic : HwEvent
  | sync : HwEvent
deriving Repr, DecidableEq

/-- Result of one pipeline step: success flag, the error message newly stored into
`last_error` (`none` when the step leaves `last_error` untouched), and the driver
calls performed. -/
structure StepR where
  ok : Bool
  err : Option String
  evs : List HwEvent
deriving Repr, DecidableEq

/-- The decoded image a surface maps to: geometry, plane offsets/pitches and the
mapped bytes. -/
structure VAImage where
  width : Nat
  height : Nat
  offset0 : Nat
  pitch0 : Nat
  offset1 : Nat
  pitch1 : Nat
  data : List Nat
deriving Repr, DecidableEq

/-- Driver behaviour oracle: per driver entry point, `none`/`true` means the call
succeeds, `some s`/`false` that it fails with status string `s`.  `image` is the
content the mapped surface presents. -/
structure HwOracle where
  beginPicture : Option String
  createPicParamBuf : Option String
  renderPicParams : Bool
  createSliceParamBuf : Option String
  renderSliceParams : Bool
  createSliceDataBuf : Option String
  renderSliceData : Bool
  endPicture : Option String
  syncSurface : Option String
  deriveOk : Bool
  createImage : Option String
  getImage : Option String
  mapBuffer : Option String
  image : VAImage
deriving Repr, DecidableEq

/-- `submitPictureParams`: create the picture-parameter buffer (failure stores a
named error) then `vaRenderPicture` it (failure returns false with `last_error`
untouched). -/
def submitPicParamsM (o : HwOracle) : StepR :=
  match o.createPicParamBuf with
  | some s => ⟨false, some ("Failed to create picture parameter buffer: " ++ s), []⟩
  | none => ⟨o.renderPicParams, none, [HwEvent.picParams]⟩

/-- `submitSliceParams` for a NAL of `nalSize` bytes: the record is a full-picture
slice (size = NAL length, offset 0, all-data flag, segment address 0). -/
def submitSliceParamsM (o : HwOracle) (nalSize : Nat) : StepR :=
  match o.createSliceParamBuf with
  | some s => ⟨false, some ("Failed to create slice parameter buffer: " ++ s), []⟩
  | none => ⟨o.renderSliceParams, none, [HwEvent.sliceParams ⟨nalSize, 0, true, 0⟩]⟩

/-- `submitSliceData` for the raw NAL bytes. -/
def submitSliceDataM (o : HwOracle) (bytes : List Nat) : StepR :=
  match o.createSliceDataBuf with
  | some s => ⟨false, some ("Failed to create slice data buffer: " ++ s), []⟩
  | none => ⟨o.renderSliceData, none, [HwEvent.sliceData bytes]⟩

/-- One iteration of the NAL loop in `decodeFrameInternal`: skip zero-size NALs;
types `[0,9]` submit slice parameters then slice data; types `[32,34]` submit slice
data only; all other types are ignored. -/
def submitOneNAL (o : HwOracle) (buf : Array Nat) (nal : Nat × Nat) : StepR :=
  let sz := nal.2 - nal.1
  if sz = 0 then ⟨true, none, []⟩
  else
    let t := nalType (buf.getD nal.1 0)
    if t ≤ 9 then
      let r₁ := submitSliceParamsM o sz
      if r₁.ok then
        let r₂ := submitSliceDataM o (segBytes buf nal.1 nal.2)
        ⟨r₂.ok, r₂.err, r₁.evs ++ r₂.evs⟩
      else r₁
    else if 32 ≤ t ∧ t ≤ 34 then submitSliceDataM o (segBytes buf nal.1 nal.2)
    else ⟨true, none, []⟩

/-- The NAL loop of `decodeFrameInternal`, aborting on the first failing NAL. -/
def submitLoop (o : HwOracle) (buf : Array Nat) : List (Nat × Nat) → StepR
  | [] => ⟨true, none, []⟩
  | nal :: rest =>
    let r := submitOneNAL o buf nal
    if r.ok then
      let r' := submitLoop o buf rest
      ⟨r'.ok, r'.err, r.evs ++ r'.evs⟩
    else r

/-- `PureVaapiDecoder::decodeFrameInternal`: begin the picture, submit picture
parameters, loop over the NALs, end the picture, sync.  Every failure after a
successful `vaBeginPicture` still performs `vaEndPicture` before reporting. -/
def decodeFrameInternal (o : HwOracle) (buf : Array Nat)
    (au : List (Nat × Nat)) : StepR :=
  match o.beginPicture with
  | some s => ⟨false, some ("vaBeginPicture failed: " ++ s), [HwEvent.beginPic]⟩
  | none =>
    let rp := submitPicParamsM o
    if rp.ok then
      let rl := submitLoop o buf au
      if rl.ok then
        match o.endPicture with
        | some s =>
          ⟨false, some ("vaEndPicture failed: " ++ s),
           HwEvent.beginPic :: (rp.evs ++ rl.evs ++ [HwEvent.endPic])⟩
        | none =>
          match o.syncSurface with
          | some s =>
            ⟨false, some ("vaSyncSurface failed: " ++ s),
             HwEvent.beginPic :: (rp.evs ++ rl.evs ++ [HwEvent.endPic, HwEvent.sync])⟩
          | none =>
            ⟨true, none,
             HwEvent.beginPic :: (rp.evs ++ rl.evs ++ [HwEvent.endPic, HwEvent.sync])⟩
      else ⟨false, rl.err, HwEvent.beginPic :: (rp.evs ++ rl.evs ++ [HwEvent.endPic])⟩
    else ⟨false, rp.err, HwEvent.beginPic :: (rp.evs ++ [HwEvent.endPic])⟩

/-- The submissions the specification's wording prescribes for one NAL — the
claim-side of the refinement comparison for the submission pipeline. -/
def claimSubmissions (buf : Array Nat) (nal : Nat × Nat) : List HwEvent :=
  let t := nalType (buf.getD nal.1 0)
  if t ≤ 9 then
    [HwEvent.sliceParams ⟨nal.2 - nal.1, 0, true, 0⟩,
     HwEvent.sliceData (segBytes buf nal.1 nal.2)]
  else if 32 ≤ t ∧ t ≤ 34 then [HwEvent.sliceData (segBytes buf nal.1 nal.2)]
  else []

/-- Events that are slice-level submissions (as opposed to begin/end/sync or the
picture-parameter record). -/
def isSliceEvent : HwEvent → Bool
  | HwEvent.sliceParams _ => true
  | HwEvent.sliceData _ => true
  | _ => false

/-- A fully cooperative driver presenting image `img`. -/
def allOkOracle (img : VAImage) : HwOracle :=
  ⟨none, none, true, none, true, none, true, none, none, true, none, none, none, img⟩

/-! ## Surface export and decoder state -/

/-- `nv12_size = width * height * 3 / 2` (integer division, as in the C++). -/
def nv12Size (img : VAImage) : Nat := img.width * img.height * 3 / 2

/-- One `memcpy` row of `w` bytes read from the mapped image at offset `off`. -/
def rowBytes (d : List Nat) (off w : Nat) : List Nat :=
  (List.range w).map (fun k => d.getD (off + k) 0)

/-- The luma rows: `height` rows of `width` bytes, read at pitch `pitch0`. -/
def yBytes (img : VAImage) : List Nat :=
  (List.range img.height).flatMap
    (fun i => rowBytes img.data (img.offset0 + i * img.pitch0) img.width)

/-- The interleaved chroma rows: `height / 2` rows of `width` bytes at `pitch1`. -/
def uvBytes (img : VAImage) : List Nat :=
  (List.range (img.height / 2)).flatMap
    (fun i => rowBytes img.data (img.offset1 + i * img.pitch1) img.width)

/-- Number of destination bytes the two copy loops write. -/
def writtenLen (img : VAImage) : Nat :=
  img.width * img.height + img.width * (img.height / 2)

/-- Effect of the two copy loops on the destination buffer: the prefix
`[0, writtenLen)` is overwritten with the packed planes, the rest is untouched. -/
def writeFrame (img : VAImage) (store : List Nat) : List Nat :=
  yBytes img ++ uvBytes img ++ store.drop (writtenLen img)

/-- The frame handed back to the caller: buffer contents, width, height and
`*out_size`. -/
structure Frame where
  data : List Nat
  width : Nat
  height : Nat
  size : Nat
deriving Repr, DecidableEq

/-- Mutable decoder state: stream cursor (`buffer_pos`), `current_surface`, the
grow-only output buffer (`nv12_buffer_size` and its contents), `last_error`, and the
`initialized` flag. -/
structure DecState where
  pos : Nat
  surf : Nat
  cap : Nat
  store : List Nat
  err : String
  ready : Bool
deriving Repr, DecidableEq

/-- Session-fixed data: the loaded stream, the driver oracle, and `num_surfaces`. -/
structure DecCfg where
  buf : Array Nat
  hw : HwOracle
  numSurfaces : Nat
deriving Repr, DecidableEq

/-- The destination buffer after one `getSurfaceData` copy: reallocated
(zero-initialized, as `std::make_unique<uint8_t[]>` value-initializes) only when
the previous capacity is too small, then overwritten by the two plane copies. -/
def copiedStore (img : VAImage) (cap : Nat) (store : List Nat) : List Nat :=
  writeFrame img
    (if cap < nv12Size img then List.replicate (nv12Size img) 0 else store)

/-- The tail of `getSurfaceData` after an image is obtained: map the buffer, grow the
NV12 buffer if needed, copy the planes, return the frame and advance
`current_surface` modulo `num_surfaces`. -/
def mapAndCopy (cfg : DecCfg) (st : DecState) : Option Frame × DecState :=
  match cfg.hw.mapBuffer with
  | some s => (none, { st with err := "Cannot map buffer: " ++ s })
  | none =>
    (some ⟨(copiedStore cfg.hw.image st.cap st.store).take (nv12Size cfg.hw.image),
           cfg.hw.image.width, cfg.hw.image.height, nv12Size cfg.hw.image⟩,
     { st with
       cap := if st.cap < nv12Size cfg.hw.image then nv12Size cfg.hw.image else st.cap,
       store := copiedStore cfg.hw.image st.cap st.store,
       surf := (st.surf + 1) % cfg.numSurfaces })

/-- `PureVaapiDecoder::getSurfaceData`: derive the image, or fall back to
create-and-get; then map and copy.  Failures set a named error and leave the
buffer and surface index untouched. -/
def getSurface (cfg : DecCfg) (st : DecState) : Option Frame × DecState :=
  if cfg.hw.deriveOk then mapAndCopy cfg st
  else
    match cfg.hw.createImage with
    | some s => (none, { st with err := "Cannot create image: " ++ s })
    | none =>
      match cfg.hw.getImage with
      | some s => (none, { st with err := "Cannot get image: " ++ s })
      | none => mapAndCopy cfg st

/-- `PureVaapiDecoder::decodeFrame` (a full `decodeNextFrame()` call): assemble an
access unit (advancing the cursor), run the submission pipeline, export the
surface.  Returns `none` for end of stream and for every failure. -/
def decodeNextFrame (cfg : DecCfg) (st : DecState) : Option Frame × DecState :=
  if st.ready then
    match (assembleAU cfg.buf st.pos).1 with
    | none => (none, { st with pos := (assembleAU cfg.buf st.pos).2 })
    | some (au, _) =>
      if (decodeFrameInternal cfg.hw cfg.buf au).ok then
        getSurface cfg { st with pos := (assembleAU cfg.buf st.pos).2 }
      else
        (none,
         { st with
           pos := (assembleAU cfg.buf st.pos).2,
           err := ((decodeFrameInternal cfg.hw cfg.buf au).err).getD st.err })
  else (none, { st with err := "Decoder not initialized" })

/-- State right after a successful `open`. -/
def openedState : DecState := ⟨0, 0, 0, [], "", true⟩

/-- `PureVaapiDecoder::reset`: `buffer_pos = 0; current_surface = 0;` only. -/
def resetState (st : DecState) : DecState := { st with pos := 0, surf := 0 }

/-- State after `k` further `decodeNextFrame` calls from the opened state. -/
def runK (cfg : DecCfg) : Nat → DecState
  | 0 => openedState
  | k + 1 => (decodeNextFrame cfg (runK cfg k)).2

/-- The driver-call trace a `decodeNextFrame` from state `st` sends to the
submission pipeline (empty when the assembler reports end of stream). -/
def decodeSubs (cfg : DecCfg) (st : DecState) : List HwEvent :=
  match (assembleAU cfg.buf st.pos).1 with
  | some (au, _) => (decodeFrameInternal cfg.hw cfg.buf au).evs
  | none => []

/-! ## Session initialization model -/

/-- Oracle for the acquisition steps of `initVAAPI`/`initFromFile`. -/
structure InitOracle where
  openDevice : Bool
  getDisplay : Bool
  initDisplay : Option String
  createConfig : Option String
  createSurfaces : Option String
  createContext : Option String
  readFile : Option (List Nat)
deriving Repr, DecidableEq

/-- Which handles the session currently holds, plus stream buffer, cursor, the
`initialized` flag and `last_error`. -/
structure ResState where
  fdOpen : Bool
  displayOpen : Bool
  configCreated : Bool
  surfacesAlloc : Bool
  contextCreated : Bool
  fileBuf : List Nat
  bufferPos : Nat
  ready : Bool
  lastError : String
deriving Repr, DecidableEq

/-- `PureVaapiDecoder::cleanup`: release surfaces, context, config, display and
device, clear the stream buffer and cursor, drop `initialized`. -/
def cleanupSt (st : ResState) : ResState :=
  { st with fdOpen := false, displayOpen := false, configCreated := false,
            surfacesAlloc := false, contextCreated := false,
            fileBuf := [], bufferPos := 0, ready := false }

/-- `PureVaapiDecoder::initVAAPI`: acquire device, display, VA library, config,
surfaces, context in order; each failure stores a named error and returns `false`
immediately, releasing nothing. -/
def initVAAPI (o : InitOracle) (st : ResState) : Bool × ResState :=
  if o.openDevice then
    let st₁ := { st with fdOpen := true }
    if o.getDisplay then
      let st₂ := { st₁ with displayOpen := true }
      match o.initDisplay with
      | some s => (false, { st₂ with lastError := "Cannot initialize VA-API: " ++ s })
      | none =>
        match o.createConfig with
        | some s => (false, { st₂ with lastError := "Cannot create VA config: " ++ s })
        | none =>
          let st₃ := { st₂ with configCreated := true }
          match o.createSurfaces with
          | some s => (false, { st₃ with lastError := "Cannot create surfaces: " ++ s })
          | none =>
            let st₄ := { st₃ with surfacesAlloc := true }
            match o.createContext with
            | some s => (false, { st₄ with lastError := "Cannot create context: " ++ s })
            | none => (true, { st₄ with contextCreated := true })
    else (false, { st₁ with lastError := "Cannot get VA display" })
  else (false, { st with lastError := "Cannot open DRM device: /dev/dri/renderD128" })

/-- `PureVaapiDecoder::initFromFile`: run `cleanup` first, then `initVAAPI`, then
load the file (missing file and empty file are errors); only full success sets
`initialized`. -/
def initFromFile (o : InitOracle) (st : ResState) (filename : String) :
    Bool × ResState :=
  let stc := cleanupSt st
  let (ok, st₁) := initVAAPI o stc
  if ok then
    match o.readFile with
    | none => (false, { st₁ with lastError := "Cannot open file: " ++ filename })
    | some bytes =>
      if bytes.isEmpty then (false, { st₁ with lastError := "Empty file" })
      else (true, { st₁ with fileBuf := bytes, bufferPos := 0, ready := true })
  else (false, st₁)

/-- The canonical output-buffer content for image `img`: a fresh zeroed buffer of
`nv12Size img` bytes overwritten by the two plane copies. -/
def canonStore (img : VAImage) : List Nat :=
  writeFrame img (List.replicate (nv12Size img) 0)

/-- Interleave the gap before each NAL range (the start-code bytes) with the NAL
bytes themselves, starting from base position `p`. -/
def chainBytes (buf : Array Nat) : Nat → List (Nat × Nat) → List Nat
  | _, [] => []
  | p, (s, e) :: rest => segBytes buf p s ++ (segBytes buf s e ++ chainBytes buf e rest)

/-- Every gap before a NAL range consists exactly of a 3-byte or 4-byte start
code. -/
def gapsAreCodes (buf : Array Nat) : Nat → List (Nat × Nat) → Bool
  | _, [] => true
  | p, (s, e) :: rest =>
    (segBytes buf p s == [0, 0, 1] || segBytes buf p s == [0, 0, 0, 1]) &&
      gapsAreCodes buf e rest

/-! ## Scanner lemmas -/

theorem getD_irrel {buf : Array Nat} {i : Nat} (h : i < buf.size) (d₁ d₂ : Nat) :
    buf.getD i d₁ = buf.getD i d₂ := by
  simp [Array.getD, h]

theorem scanGo_some {buf : Array Nat} : ∀ {fuel i p : Nat},
    scanGo buf fuel i = some p →
    i ≤ p ∧ p + 3 < buf.size ∧ (startCode4 buf p || startCode3 buf p) = true := by
  intro fuel
  induction fuel with
  | zero => intro i p h; simp [scanGo] at h
  | succ f ih =>
    intro i p h
    simp only [scanGo] at h
    by_cases hb : i + 3 < buf.size
    · rw [if_pos hb] at h
      by_cases hc : (startCode4 buf i || startCode3 buf i) = true
      · rw [if_pos hc] at h
        cases h
        exact ⟨Nat.le_refl _, hb, hc⟩
      · rw [if_neg hc] at h
        obtain ⟨h1, h2, h3⟩ := ih h
        exact ⟨by omega, h2, h3⟩
    · rw [if_neg hb] at h
      cases h

theorem scanStart_some {buf : Array Nat} {i p : Nat} (h : scanStart buf i = some p) :
    i ≤ p ∧ p + 3 < buf.size ∧ (startCode4 buf p || startCode3 buf p) = true :=
  scanGo_some h

theorem scanStart_eq (buf : Array Nat) (i : Nat) :
    scanStart buf i =
      if i + 3 < buf.size then
        if startCode4 buf i || startCode3 buf i then some i
        else scanStart buf (i + 1)
      else none := by
  unfold scanStart
  by_cases hb : i + 3 < buf.size
  · have hfu : buf.size - i = (buf.size - (i + 1)) + 1 := by omega
    rw [hfu]
    simp [scanGo, hb]
  · cases hfu : buf.size - i with
    | zero => simp [scanGo, hb]
    | succ f => simp [scanGo, hb]

theorem scanStart_none_iff {buf : Array Nat} : ∀ (fuel i : Nat), buf.size - i ≤ fuel →
    (scanStart buf i = none ↔
      ∀ j, i ≤ j → j + 3 < buf.size → (startCode4 buf j || startCode3 buf j) = false) := by
  intro fuel
  induction fuel with
  | zero =>
    intro i hf
    rw [scanStart_eq]
    have hb : ¬ i + 3 < buf.size := by omega
    rw [if_neg hb]
    constructor
    · intro _ j hij hj
      exact absurd hj (by omega)
    · intro _; rfl
  | succ f ih =>
    intro i hf
    rw [scanStart_eq]
    by_cases hb : i + 3 < buf.size
    · rw [if_pos hb]
      by_cases hc : (startCode4 buf i || startCode3 buf i) = true
      · rw [if_pos hc]
        constructor
        · intro h; cases h
        · intro hall
          have := hall i (Nat.le_refl i) hb
          rw [hc] at this
          cases this
      · rw [if_neg hc]
        have hc' : (startCode4 buf i || startCode3 buf i) = false := by
          revert hc
          cases startCode4 buf i || startCode3 buf i <;> simp
        rw [ih (i + 1) (by omega)]
        constructor
        · intro hall j hij hj
          rcases Nat.eq_or_lt_of_le hij with heq | hlt
          · rw [← heq]; exact hc'
          · exact hall j (by omega) hj
        · intro hall j hij hj
          exact hall j (by omega) hj
    · rw [if_neg hb]
      constructor
      · intro _ j hij hj
        exact absurd hj (by omega)
      · intro _; rfl

theorem scanStart_self {buf : Array Nat} {i : Nat} (hb : i + 3 < buf.size)
    (hc : (startCode4 buf i || startCode3 buf i) = true) :
    scanStart buf i = some i := by
  rw [scanStart_eq, if_pos hb, if_pos hc]

theorem scanStart_size (buf : Array Nat) : scanStart buf buf.size = none := by
  unfold scanStart
  rw [Nat.sub_self]
  rfl

theorem endScan_spec (buf : Array Nat) (s : Nat) :
    (scanStart buf s = none ∧ endScan buf s = buf.size) ∨
    (scanStart buf s = some (endScan buf s) ∧ s ≤ endScan buf s ∧
      endScan buf s + 3 < buf.size) := by
  unfold endScan
  cases hsc : scanStart buf s with
  | none => exact Or.inl ⟨rfl, rfl⟩
  | some q =>
    obtain ⟨h1, h2, _⟩ := scanGo_some hsc
    exact Or.inr ⟨rfl, h1, h2⟩

theorem findNextNAL_char {buf : Array Nat} {pos s e : Nat}
    (h : findNextNAL buf pos = some (s, e)) :
    ∃ p, scanStart buf pos = some p ∧ pos ≤ p ∧ p + 3 < buf.size ∧
      (s = p + 4 ∧ startCode4 buf p = true ∨
       s = p + 3 ∧ startCode4 buf p = false ∧ startCode3 buf p = true) ∧
      e = endScan buf s := by
  unfold findNextNAL at h
  by_cases hp : pos < buf.size
  · rw [if_pos hp] at h
    cases hsc : scanStart buf pos with
    | none =>
      rw [hsc] at h
      exact Option.noConfusion h
    | some p =>
      rw [hsc] at h
      have h' : (if startCode4 buf p then some (p + 4, endScan buf (p + 4))
                 else some (p + 3, endScan buf (p + 3))) = some (s, e) := h
      obtain ⟨h1, h2, h3⟩ := scanStart_some hsc
      refine ⟨p, rfl, h1, h2, ?_⟩
      by_cases h4 : startCode4 buf p = true
      · rw [if_pos h4] at h'
        simp only [Option.some.injEq, Prod.mk.injEq] at h'
        obtain ⟨hs, he⟩ := h'
        subst hs
        exact ⟨Or.inl ⟨rfl, h4⟩, he.symm⟩
      · rw [if_neg h4] at h'
        simp only [Option.some.injEq, Prod.mk.injEq] at h'
        obtain ⟨hs, he⟩ := h'
        subst hs
        have h4' : startCode4 buf p = false := by
          revert h4; cases startCode4 buf p <;> simp
        have h3' : startCode3 buf p = true := by
          rw [h4'] at h3
          simpa using h3
        exact ⟨Or.inr ⟨rfl, h4', h3'⟩, he.symm⟩
  · rw [if_neg hp] at h
    cases h

theorem findNextNAL_bounds {buf : Array Nat} {pos s e : Nat}
    (h : findNextNAL buf pos = some (s, e)) :
    pos < buf.size ∧ pos < s ∧ s ≤ buf.size ∧ s ≤ e ∧ e ≤ buf.size := by
  obtain ⟨p, hsc, hp1, hp2, hs, he⟩ := findNextNAL_char h
  have hse : s ≤ buf.size := by rcases hs with ⟨rfl, _⟩ | ⟨rfl, _⟩ <;> omega
  have hposs : pos < s := by rcases hs with ⟨rfl, _⟩ | ⟨rfl, _⟩ <;> omega
  rcases endScan_spec buf s with ⟨_, hesz⟩ | ⟨_, hge, hlt⟩
  · rw [he, hesz]
    exact ⟨by omega, hposs, hse, hse, Nat.le_refl _⟩
  · rw [he]
    exact ⟨by omega, hposs, hse, hge, by omega⟩

theorem findNextNAL_none_iff (buf : Array Nat) (pos : Nat) :
    findNextNAL buf pos = none ↔
      ∀ j, pos ≤ j → j + 3 < buf.size →
        (startCode4 buf j || startCode3 buf j) = false := by
  unfold findNextNAL
  by_cases hp : pos < buf.size
  · rw [if_pos hp]
    cases hsc : scanStart buf pos with
    | none =>
      have hiff := @scanStart_none_iff buf buf.size pos (by omega)
      rw [hsc] at hiff
      simpa using hiff
    | some p =>
      obtain ⟨h1, h2, h3⟩ := scanStart_some hsc
      constructor
      · intro h
        have h' : (if startCode4 buf p then some (p + 4, endScan buf (p + 4))
                   else some (p + 3, endScan buf (p + 3))) = none := h
        split at h' <;> exact Option.noConfusion h'
      · intro hall
        have hfalse := hall p h1 h2
        rw [h3] at hfalse
        cases hfalse
  · rw [if_neg hp]
    constructor
    · intro _ j hj hjb
      exact absurd hjb (by omega)
    · intro _; rfl

theorem findNextNAL_size_none (buf : Array Nat) {pos : Nat} (h : buf.size ≤ pos) :
    findNextNAL buf pos = none := by
  unfold findNextNAL
  rw [if_neg (by omega)]

/-! ## Byte-segment lemmas -/

theorem segBytes_self (buf : Array Nat) (a : Nat) : segBytes buf a a = [] := by
  simp [segBytes]

theorem segBytes_split (buf : Array Nat) {a b c : Nat} (hab : a ≤ b) (hbc : b ≤ c) :
    segBytes buf a c = segBytes buf a b ++ segBytes buf b c := by
  unfold segBytes
  have hsum : c - a = (b - a) + (c - b) := by omega
  rw [hsum, List.range_add, List.map_append, List.map_map]
  have hfun : ((fun k => buf.getD (a + k) 0) ∘ fun x => b - a + x)
      = (fun k => buf.getD (b + k) 0) := by
    funext k
    simp only [Function.comp]
    congr 1
    omega
  rw [hfun]

theorem segBytes_length (buf : Array Nat) (a b : Nat) :
    (segBytes buf a b).length = b - a := by
  simp [segBytes]

theorem segBytes_toList (buf : Array Nat) : segBytes buf 0 buf.size = buf.toList := by
  apply List.ext_getElem
  · simp [segBytes]
  · intro i h1 h2
    simp only [segBytes, Nat.sub_zero, List.getElem_map, List.getElem_range,
      Nat.zero_add]
    have hi : i < buf.size := by
      simpa using h2
    simp [Array.getD, hi]

theorem segBytes_code4 {buf : Array Nat} {p : Nat} (hb : p + 3 < buf.size)
    (hc : startCode4 buf p = true) : segBytes buf p (p + 4) = [0, 0, 0, 1] := by
  have h4 : p + 4 - p = 4 := by omega
  unfold segBytes
  rw [h4]
  have hr : List.range 4 = [0, 1, 2, 3] := rfl
  rw [hr]
  simp only [List.map_cons, List.map_nil]
  simp only [startCode4, Bool.and_eq_true, beq_iff_eq] at hc
  obtain ⟨⟨⟨hc0, hc1⟩, hc2⟩, hc3⟩ := hc
  rw [getD_irrel (by omega : p + 0 < buf.size) 0 255,
      getD_irrel (by omega : p + 1 < buf.size) 0 255,
      getD_irrel (by omega : p + 2 < buf.size) 0 255,
      getD_irrel (by omega : p + 3 < buf.size) 0 255]
  rw [show p + 0 = p by omega] at *
  rw [hc0, hc1, hc2, hc3]

theorem segBytes_code3 {buf : Array Nat} {p : Nat} (hb : p + 3 < buf.size)
    (hc : startCode3 buf p = true) : segBytes buf p (p + 3) = [0, 0, 1] := by
  have h3 : p + 3 - p = 3 := by omega
  unfold segBytes
  rw [h3]
  have hr : List.range 3 = [0, 1, 2] := rfl
  rw [hr]
  simp only [List.map_cons, List.map_nil]
  simp only [startCode3, Bool.and_eq_true, beq_iff_eq] at hc
  obtain ⟨⟨hc0, hc1⟩, hc2⟩ := hc
  rw [getD_irrel (by omega : p + 0 < buf.size) 0 255,
      getD_irrel (by omega : p + 1 < buf.size) 0 255,
      getD_irrel (by omega : p + 2 < buf.size) 0 255]
  rw [show p + 0 = p by omega] at *
  rw [hc0, hc1, hc2]

/-! ## Framer-trace machinery -/

theorem traceGo_irrel {buf : Array Nat} : ∀ (f₁ : Nat) {f₂ pos : Nat},
    buf.size - pos < f₁ → buf.size - pos < f₂ →
    traceGo buf f₁ pos = traceGo buf f₂ pos := by
  intro f₁
  induction f₁ with
  | zero => intro f₂ pos h1 h2; omega
  | succ f ih =>
    intro f₂ pos h1 h2
    cases f₂ with
    | zero => omega
    | succ g =>
      simp only [traceGo]
      cases hf : findNextNAL buf pos with
      | none => rfl
      | some se =>
        obtain ⟨s, e⟩ := se
        obtain ⟨hps, hpos, hsz, _, _⟩ := findNextNAL_bounds hf
        show (s, e) :: traceGo buf f s = (s, e) :: traceGo buf g s
        exact congrArg _ (@ih g s (by omega) (by omega))

theorem framerTrace_eq (buf : Array Nat) (pos : Nat) :
    framerTrace buf pos =
      match findNextNAL buf pos with
      | none => []
      | some (s, e) => (s, e) :: framerTrace buf s := by
  cases hf : findNextNAL buf pos with
  | none =>
    unfold framerTrace
    simp only [traceGo]
    rw [hf]
  | some se =>
    obtain ⟨s, e⟩ := se
    obtain ⟨hps, hpos, hsz, _, _⟩ := findNextNAL_bounds hf
    unfold framerTrace
    show traceGo buf (buf.size + 1) pos = (s, e) :: traceGo buf (buf.size + 1) s
    have hstep : traceGo buf (buf.size + 1) pos = (s, e) :: traceGo buf buf.size s := by
      simp only [traceGo, hf]
    rw [hstep]
    exact congrArg _
      (@traceGo_irrel buf buf.size (buf.size + 1) s (by omega) (by omega))

theorem framerTrace_nil_iff (buf : Array Nat) (pos : Nat) :
    framerTrace buf pos = [] ↔ findNextNAL buf pos = none := by
  rw [framerTrace_eq]
  cases h : findNextNAL buf pos with
  | none => simp
  | some se =>
    obtain ⟨s, e⟩ := se
    simp


theorem chain_shift {buf : Array Nat} {p p' : Nat} (x : Nat × Nat)
    (t : List (Nat × Nat)) (h1 : p ≤ p') (h2 : p' ≤ x.1) :
    segBytes buf p p' ++ chainBytes buf p' (x :: t) = chainBytes buf p (x :: t) := by
  obtain ⟨s, e⟩ := x
  simp only [chainBytes]
  rw [← List.append_assoc, ← segBytes_split buf h1 h2]

theorem endScan_eq_size_of_none {buf : Array Nat} {s : Nat} (hs : s ≤ buf.size)
    (h : findNextNAL buf s = none) : endScan buf s = buf.size := by
  unfold findNextNAL at h
  by_cases hlt : s < buf.size
  · rw [if_pos hlt] at h
    cases hsc : scanStart buf s with
    | none => unfold endScan; rw [hsc]
    | some p =>
      rw [hsc] at h
      have h' : (if startCode4 buf p then some (p + 4, endScan buf (p + 4))
                 else some (p + 3, endScan buf (p + 3))) = (none : Option (Nat × Nat)) := h
      split at h' <;> exact Option.noConfusion h'
  · have hse : s = buf.size := by omega
    subst hse
    unfold endScan
    rw [scanStart_size]

theorem endScan_of_some {buf : Array Nat} {s s' e' : Nat}
    (h : findNextNAL buf s = some (s', e')) :
    scanStart buf s = some (endScan buf s) ∧ endScan buf s < s' := by
  obtain ⟨p, hsc, hp1, hp2, hs, _⟩ := findNextNAL_char h
  have he : endScan buf s = p := by unfold endScan; rw [hsc]
  rw [he]
  refine ⟨hsc, ?_⟩
  rcases hs with ⟨rfl, _⟩ | ⟨rfl, _⟩ <;> omega

theorem chain_segment {buf : Array Nat} : ∀ (fuel pos : Nat), buf.size - pos < fuel →
    framerTrace buf pos ≠ [] →
    chainBytes buf pos (framerTrace buf pos) = segBytes buf pos buf.size := by
  intro fuel
  induction fuel with
  | zero => intro pos h _; omega
  | succ f ih =>
    intro pos hfu hne
    rw [framerTrace_eq] at hne ⊢
    cases hf : findNextNAL buf pos with
    | none => rw [hf] at hne; simp at hne
    | some se =>
      obtain ⟨s, e⟩ := se
      show chainBytes buf pos ((s, e) :: framerTrace buf s) = segBytes buf pos buf.size
      obtain ⟨hpossz, hposs, hssz, hse, hesz⟩ := findNextNAL_bounds hf
      obtain ⟨p, hsc, hp1, hp2, hsor, hee⟩ := findNextNAL_char hf
      simp only [chainBytes]
      cases hrest : framerTrace buf s with
      | nil =>
        have hnone : findNextNAL buf s = none := (framerTrace_nil_iff buf s).mp hrest
        have hesize : e = buf.size := by
          rw [hee]
          exact endScan_eq_size_of_none hssz hnone
        simp only [chainBytes, List.append_nil]
        rw [hesize, ← segBytes_split buf (by omega : pos ≤ s) hssz]
      | cons x t =>
        have hsome : ∃ y, findNextNAL buf s = some y := by
          rcases hg : findNextNAL buf s with _ | y
          · rw [(framerTrace_nil_iff buf s).mpr hg] at hrest
            cases hrest
          · exact ⟨y, rfl⟩
        obtain ⟨⟨s', e'⟩, hg⟩ := hsome
        have hx : x = (s', e') ∧ t = framerTrace buf s' := by
          rw [framerTrace_eq, hg] at hrest
          exact ⟨(List.cons.injEq _ _ _ _ ▸ hrest).1.symm,
                 ((List.cons.injEq _ _ _ _ ▸ hrest).2).symm⟩
        obtain ⟨hes, hel⟩ := endScan_of_some hg
        have heq : e = endScan buf s := hee
        have hchain : chainBytes buf s (framerTrace buf s) = segBytes buf s buf.size := by
          apply ih s (by omega)
          rw [hrest]
          simp
        rw [hrest] at hchain
        have hshift : segBytes buf s e ++ chainBytes buf e (x :: t) =
            chainBytes buf s (x :: t) := by
          apply chain_shift
          · rw [heq]
            exact (scanStart_some hes).1
          · obtain ⟨hx1, _⟩ := hx
            rw [hx1, heq]
            exact Nat.le_of_lt hel
        rw [hshift, hchain, ← segBytes_split buf (by omega : pos ≤ s) hssz]

theorem gaps_codes {buf : Array Nat} : ∀ (fuel pos q : Nat), buf.size - pos < fuel →
    scanStart buf pos = some q →
    gapsAreCodes buf q (framerTrace buf pos) = true := by
  intro fuel
  induction fuel with
  | zero => intro pos q h _; omega
  | succ f ih =>
    intro pos q hfu hsc
    obtain ⟨hq1, hq2, hq3⟩ := scanStart_some hsc
    have hpos : pos < buf.size := by omega
    rw [framerTrace_eq]
    have hunf : findNextNAL buf pos =
        (if startCode4 buf q then some (q + 4, endScan buf (q + 4))
         else some (q + 3, endScan buf (q + 3))) := by
      unfold findNextNAL
      rw [if_pos hpos, hsc]
    by_cases h4 : startCode4 buf q = true
    · rw [if_pos h4] at hunf
      rw [hunf]
      simp only [gapsAreCodes, Bool.and_eq_true, Bool.or_eq_true]
      constructor
      · right
        rw [segBytes_code4 hq2 h4]
        decide
      · rcases endScan_spec buf (q + 4) with ⟨hnone, hsz⟩ | ⟨hsome, _, _⟩
        · have htr : framerTrace buf (q + 4) = [] := by
            rw [framerTrace_nil_iff]
            unfold findNextNAL
            by_cases hlt : q + 4 < buf.size
            · rw [if_pos hlt, hnone]
            · rw [if_neg hlt]
          rw [htr]
          rfl
        · exact ih (q + 4) (endScan buf (q + 4)) (by omega) hsome
    · have h3 : startCode3 buf q = true := by
        rw [Bool.or_eq_true] at hq3
        rcases hq3 with h | h
        · exact absurd h h4
        · exact h
      rw [if_neg h4] at hunf
      rw [hunf]
      simp only [gapsAreCodes, Bool.and_eq_true, Bool.or_eq_true]
      constructor
      · left
        rw [segBytes_code3 hq2 h3]
        decide
      · rcases endScan_spec buf (q + 3) with ⟨hnone, hsz⟩ | ⟨hsome, _, _⟩
        · have htr : framerTrace buf (q + 3) = [] := by
            rw [framerTrace_nil_iff]
            unfold findNextNAL
            by_cases hlt : q + 3 < buf.size
            · rw [if_pos hlt, hnone]
            · rw [if_neg hlt]
          rw [htr]
          rfl
        · exact ih (q + 3) (endScan buf (q + 3)) (by omega) hsome

theorem trace_last_end {buf : Array Nat} : ∀ (fuel pos : Nat), buf.size - pos < fuel →
    ∀ x, (framerTrace buf pos).getLast? = some x → x.2 = buf.size := by
  intro fuel
  induction fuel with
  | zero => intro pos h _ _; omega
  | succ f ih =>
    intro pos hfu x hx
    rw [framerTrace_eq] at hx
    cases hf : findNextNAL buf pos with
    | none =>
      rw [hf] at hx
      simp at hx
    | some se =>
      obtain ⟨s, e⟩ := se
      rw [hf] at hx
      have hx' : ((s, e) :: framerTrace buf s).getLast? = some x := hx
      obtain ⟨hpossz, hposs, hssz, hse, hesz⟩ := findNextNAL_bounds hf
      obtain ⟨p, hsc, hp1, hp2, hsor, hee⟩ := findNextNAL_char hf
      cases hrest : framerTrace buf s with
      | nil =>
        rw [hrest] at hx'
        simp only [List.getLast?_singleton, Option.some.injEq] at hx'
        have hnone : findNextNAL buf s = none := (framerTrace_nil_iff buf s).mp hrest
        rw [← hx']
        rw [hee]
        exact endScan_eq_size_of_none hssz hnone
      | cons y t =>
        rw [hrest] at hx'
        rw [List.getLast?_cons_cons] at hx'
        rw [← hrest] at hx'
        exact ih s (by omega) x hx'

/-! ## Assembler lemmas -/

theorem asmGo_irrel {buf : Array Nat} : ∀ (f₁ : Nat) {f₂ pos : Nat}
    (acc : List (Nat × Nat)), buf.size - pos < f₁ → buf.size - pos < f₂ →
    asmGo buf f₁ pos acc = asmGo buf f₂ pos acc := by
  intro f₁
  induction f₁ with
  | zero => intro f₂ pos acc h1 h2; omega
  | succ f ih =>
    intro f₂ pos acc h1 h2
    cases f₂ with
    | zero => omega
    | succ g =>
      simp only [asmGo]
      cases hf : findNextNAL buf pos with
      | none => rfl
      | some se =>
        obtain ⟨s, e⟩ := se
        obtain ⟨hps, hpos, hsz, _, _⟩ := findNextNAL_bounds hf
        show (if s < buf.size then
                if nalType (buf.getD s 0) ≤ 9 then (some (acc ++ [(s, e)], AUEnd.slice), s)
                else asmGo buf f s (acc ++ [(s, e)])
              else asmGo buf f s acc) =
             (if s < buf.size then
                if nalType (buf.getD s 0) ≤ 9 then (some (acc ++ [(s, e)], AUEnd.slice), s)
                else asmGo buf g s (acc ++ [(s, e)])
              else asmGo buf g s acc)
        by_cases hs : s < buf.size
        · rw [if_pos hs, if_pos hs]
          by_cases ht : nalType (buf.getD s 0) ≤ 9
          · rw [if_pos ht, if_pos ht]
          · rw [if_neg ht, if_neg ht]
            exact @ih g s _ (by omega) (by omega)
        · rw [if_neg hs, if_neg hs]
          exact @ih g s _ (by omega) (by omega)

theorem asmGo_eq (buf : Array Nat) {fuel pos : Nat} (acc : List (Nat × Nat))
    (h : buf.size - pos < fuel) :
    asmGo buf fuel pos acc =
      match findNextNAL buf pos with
      | none => (if acc.isEmpty then none else some (acc, AUEnd.eof), pos)
      | some (s, e) =>
        if s < buf.size then
          if nalType (buf.getD s 0) ≤ 9 then (some (acc ++ [(s, e)], AUEnd.slice), s)
          else asmGo buf (buf.size + 1) s (acc ++ [(s, e)])
        else asmGo buf (buf.size + 1) s acc := by
  cases fuel with
  | zero => omega
  | succ f =>
    have hstep : asmGo buf (f + 1) pos acc =
        match findNextNAL buf pos with
        | none => (if acc.isEmpty then none else some (acc, AUEnd.eof), pos)
        | some (s, e) =>
          if s < buf.size then
            if nalType (buf.getD s 0) ≤ 9 then (some (acc ++ [(s, e)], AUEnd.slice), s)
            else asmGo buf f s (acc ++ [(s, e)])
          else asmGo buf f s acc := rfl
    rw [hstep]
    cases hf : findNextNAL buf pos with
    | none => rfl
    | some se =>
      obtain ⟨s, e⟩ := se
      obtain ⟨hps, hpos, hsz, _, _⟩ := findNextNAL_bounds hf
      show (if s < buf.size then
              if nalType (buf.getD s 0) ≤ 9 then (some (acc ++ [(s, e)], AUEnd.slice), s)
              else asmGo buf f s (acc ++ [(s, e)])
            else asmGo buf f s acc) =
           (if s < buf.size then
              if nalType (buf.getD s 0) ≤ 9 then (some (acc ++ [(s, e)], AUEnd.slice), s)
              else asmGo buf (buf.size + 1) s (acc ++ [(s, e)])
            else asmGo buf (buf.size + 1) s acc)
      by_cases hs : s < buf.size
      · rw [if_pos hs, if_pos hs]
        by_cases ht : nalType (buf.getD s 0) ≤ 9
        · rw [if_pos ht, if_pos ht]
        · rw [if_neg ht, if_neg ht]
          exact asmGo_irrel f _ (by omega) (by omega)
      · rw [if_neg hs, if_neg hs]
        exact asmGo_irrel f _ (by omega) (by omega)

theorem asmGo_none_iff {buf : Array Nat} : ∀ (fuel pos : Nat)
    (acc : List (Nat × Nat)), buf.size - pos < fuel →
    ((asmGo buf (buf.size + 1) pos acc).1 = none ↔
      acc = [] ∧ ∀ nal ∈ framerTrace buf pos, ¬ nal.1 < buf.size) := by
  intro fuel
  induction fuel with
  | zero => intro pos acc h; omega
  | succ f ih =>
    intro pos acc hfu
    rw [asmGo_eq buf acc (by omega), framerTrace_eq]
    cases hf : findNextNAL buf pos with
    | none =>
      constructor
      · intro h
        by_cases hacc : acc.isEmpty
        · refine ⟨List.isEmpty_iff.mp hacc, ?_⟩
          intro nal hnal
          simp at hnal
        · rw [if_neg hacc] at h
          cases h
      · intro ⟨hacc, _⟩
        subst hacc
        rfl
    | some se =>
      obtain ⟨s, e⟩ := se
      obtain ⟨hps, hpos, hsz, _, _⟩ := findNextNAL_bounds hf
      show ((if s < buf.size then
              if nalType (buf.getD s 0) ≤ 9 then (some (acc ++ [(s, e)], AUEnd.slice), s)
              else asmGo buf (buf.size + 1) s (acc ++ [(s, e)])
            else asmGo buf (buf.size + 1) s acc).1 = none ↔
            acc = [] ∧ ∀ nal ∈ (s, e) :: framerTrace buf s, ¬ nal.1 < buf.size)
      by_cases hs : s < buf.size
      · rw [if_pos hs]
        by_cases ht : nalType (buf.getD s 0) ≤ 9
        · rw [if_pos ht]
          constructor
          · intro h; cases h
          · intro ⟨_, hall⟩
            exact absurd hs (hall (s, e) (List.mem_cons_self _ _))
        · rw [if_neg ht]
          rw [ih s (acc ++ [(s, e)]) (by omega)]
          constructor
          · intro ⟨happ, _⟩
            exact absurd happ (by simp)
          · intro ⟨_, hall⟩
            exact absurd hs (hall (s, e) (List.mem_cons_self _ _))
      · rw [if_neg hs]
        rw [ih s acc (by omega)]
        constructor
        · intro ⟨hacc, hall⟩
          refine ⟨hacc, ?_⟩
          intro nal hnal
          rcases List.mem_cons.mp hnal with heq | hmem
          · rw [heq]; exact hs
          · exact hall nal hmem
        · intro ⟨hacc, hall⟩
          exact ⟨hacc, fun nal hmem => hall nal (List.mem_cons_of_mem _ hmem)⟩

theorem asmGo_some_ne_nil {buf : Array Nat} : ∀ (fuel pos : Nat)
    (acc au : List (Nat × Nat)) (k : AUEnd), buf.size - pos < fuel →
    (asmGo buf (buf.size + 1) pos acc).1 = some (au, k) → au ≠ [] := by
  intro fuel
  induction fuel with
  | zero => intro pos acc au k h; omega
  | succ f ih =>
    intro pos acc au k hfu h
    rw [asmGo_eq buf acc (by omega)] at h
    cases hf : findNextNAL buf pos with
    | none =>
      rw [hf] at h
      by_cases hacc : acc.isEmpty
      · rw [if_pos hacc] at h
        cases h
      · rw [if_neg hacc] at h
        simp only [Option.some.injEq, Prod.mk.injEq] at h
        rw [← h.1]
        exact fun hc => hacc (by rw [hc]; rfl)
    | some se =>
      obtain ⟨s, e⟩ := se
      rw [hf] at h
      have h' : ((if s < buf.size then
              if nalType (buf.getD s 0) ≤ 9 then (some (acc ++ [(s, e)], AUEnd.slice), s)
              else asmGo buf (buf.size + 1) s (acc ++ [(s, e)])
            else asmGo buf (buf.size + 1) s acc).1 : Option (List (Nat × Nat) × AUEnd))
          = some (au, k) := h
      obtain ⟨hps, hpos, hsz, _, _⟩ := findNextNAL_bounds hf
      by_cases hs : s < buf.size
      · rw [if_pos hs] at h'
        by_cases ht : nalType (buf.getD s 0) ≤ 9
        · rw [if_pos ht] at h'
          simp only [Option.some.injEq, Prod.mk.injEq] at h'
          rw [← h'.1]
          simp
        · rw [if_neg ht] at h'
          exact ih s (acc ++ [(s, e)]) au k (by omega) h'
      · rw [if_neg hs] at h'
        exact ih s acc au k (by omega) h'

theorem asmGo_shape {buf : Array Nat} : ∀ (fuel pos : Nat)
    (acc au : List (Nat × Nat)) (k : AUEnd), buf.size - pos < fuel →
    (∀ nal ∈ acc, nal.1 < buf.size ∧ 10 ≤ nalType (buf.getD nal.1 0)) →
    (asmGo buf (buf.size + 1) pos acc).1 = some (au, k) →
    (k = AUEnd.eof → ∀ nal ∈ au, nal.1 < buf.size ∧ 10 ≤ nalType (buf.getD nal.1 0)) ∧
    (k = AUEnd.slice → ∃ l x, au = l ++ [x] ∧ x.1 < buf.size ∧
      nalType (buf.getD x.1 0) ≤ 9 ∧
      ∀ nal ∈ l, nal.1 < buf.size ∧ 10 ≤ nalType (buf.getD nal.1 0)) := by
  intro fuel
  induction fuel with
  | zero => intro pos acc au k h; omega
  | succ f ih =>
    intro pos acc au k hfu hacc h
    rw [asmGo_eq buf acc (by omega)] at h
    cases hf : findNextNAL buf pos with
    | none =>
      rw [hf] at h
      by_cases he : acc.isEmpty
      · rw [if_pos he] at h
        cases h
      · rw [if_neg he] at h
        simp only [Option.some.injEq, Prod.mk.injEq] at h
        obtain ⟨hau, hk⟩ := h
        subst hau
        constructor
        · intro _; exact hacc
        · intro hsl
          rw [← hk] at hsl
          cases hsl
    | some se =>
      obtain ⟨s, e⟩ := se
      rw [hf] at h
      have h' : ((if s < buf.size then
              if nalType (buf.getD s 0) ≤ 9 then (some (acc ++ [(s, e)], AUEnd.slice), s)
              else asmGo buf (buf.size + 1) s (acc ++ [(s, e)])
            else asmGo buf (buf.size + 1) s acc).1 : Option (List (Nat × Nat) × AUEnd))
          = some (au, k) := h
      obtain ⟨hps, hpos, hsz, _, _⟩ := findNextNAL_bounds hf
      by_cases hs : s < buf.size
      · rw [if_pos hs] at h'
        by_cases ht : nalType (buf.getD s 0) ≤ 9
        · rw [if_pos ht] at h'
          simp only [Option.some.injEq, Prod.mk.injEq] at h'
          obtain ⟨hau, hk⟩ := h'
          subst hau
          constructor
          · intro hde
            rw [← hk] at hde
            cases hde
          · intro _
            refine ⟨acc, (s, e), rfl, hs, ?_, hacc⟩
            show nalType (buf.getD s 0) ≤ 9
            exact ht
        · rw [if_neg ht] at h'
          apply ih s (acc ++ [(s, e)]) au k (by omega) ?_ h'
          intro nal hnal
          rcases List.mem_append.mp hnal with hm | hm
          · exact hacc nal hm
          · rcases List.mem_singleton.mp hm with rfl
            refine ⟨hs, ?_⟩
            show 10 ≤ nalType (buf.getD s 0)
            omega
      · rw [if_neg hs] at h'
        exact ih s acc au k (by omega) hacc h'

/-! ## Submission pipeline lemmas -/

theorem submitOneNAL_allOk (img : VAImage) (buf : Array Nat) (nal : Nat × Nat) :
    submitOneNAL (allOkOracle img) buf nal =
      ⟨true, none,
       if nal.2 - nal.1 = 0 then [] else claimSubmissions buf nal⟩ := by
  unfold submitOneNAL claimSubmissions submitSliceParamsM submitSliceDataM allOkOracle
  by_cases hz : nal.2 - nal.1 = 0
  · rw [if_pos hz, if_pos hz]
  · rw [if_neg hz, if_neg hz]
    by_cases ht : nalType (buf.getD nal.1 0) ≤ 9
    · rw [if_pos ht, if_pos ht]
      rfl
    · rw [if_neg ht, if_neg ht]
      by_cases hp : 32 ≤ nalType (buf.getD nal.1 0) ∧ nalType (buf.getD nal.1 0) ≤ 34
      · rw [if_pos hp, if_pos hp]
      · rw [if_neg hp, if_neg hp]

theorem submitLoop_allOk (img : VAImage) (buf : Array Nat) : ∀ au : List (Nat × Nat),
    submitLoop (allOkOracle img) buf au =
      ⟨true, none,
       au.flatMap (fun nal =>
         if nal.2 - nal.1 = 0 then [] else claimSubmissions buf nal)⟩ := by
  intro au
  induction au with
  | nil => rfl
  | cons nal rest ih =>
    show (let r := submitOneNAL (allOkOracle img) buf nal
          if r.ok then
            let r' := submitLoop (allOkOracle img) buf rest
            ⟨r'.ok, r'.err, r.evs ++ r'.evs⟩
          else r) = _
    rw [submitOneNAL_allOk, ih]
    simp [List.flatMap_cons]

theorem claimSubmissions_slice (buf : Array Nat) (nal : Nat × Nat) :
    ∀ ev ∈ claimSubmissions buf nal, isSliceEvent ev = true := by
  intro ev hev
  unfold claimSubmissions at hev
  by_cases ht : nalType (buf.getD nal.1 0) ≤ 9
  · rw [if_pos ht] at hev
    simp only [List.mem_cons, List.not_mem_nil, or_false] at hev
    rcases hev with rfl | rfl <;> rfl
  · rw [if_neg ht] at hev
    by_cases hp : 32 ≤ nalType (buf.getD nal.1 0) ∧ nalType (buf.getD nal.1 0) ≤ 34
    · rw [if_pos hp] at hev
      simp only [List.mem_cons, List.not_mem_nil, or_false] at hev
      rcases hev with rfl
      rfl
    · rw [if_neg hp] at hev
      cases hev

theorem internal_allOk (img : VAImage) (buf : Array Nat) (au : List (Nat × Nat)) :
    decodeFrameInternal (allOkOracle img) buf au =
      ⟨true, none,
       HwEvent.beginPic ::
         ([HwEvent.picParams] ++
          (au.flatMap (fun nal =>
            if nal.2 - nal.1 = 0 then [] else claimSubmissions buf nal)) ++
          [HwEvent.endPic, HwEvent.sync])⟩ := by
  unfold decodeFrameInternal
  rw [submitLoop_allOk]
  rfl

theorem internal_eq_of_begin_none (o : HwOracle) (buf : Array Nat)
    (au : List (Nat × Nat)) (hb : o.beginPicture = none) :
    decodeFrameInternal o buf au =
      (if (submitPicParamsM o).ok then
         if (submitLoop o buf au).ok then
           match o.endPicture with
           | some s =>
             ⟨false, some ("vaEndPicture failed: " ++ s),
              HwEvent.beginPic :: ((submitPicParamsM o).evs ++
                (submitLoop o buf au).evs ++ [HwEvent.endPic])⟩
           | none =>
             match o.syncSurface with
             | some s =>
               ⟨false, some ("vaSyncSurface failed: " ++ s),
                HwEvent.beginPic :: ((submitPicParamsM o).evs ++
                  (submitLoop o buf au).evs ++ [HwEvent.endPic, HwEvent.sync])⟩
             | none =>
               ⟨true, none,
                HwEvent.beginPic :: ((submitPicParamsM o).evs ++
                  (submitLoop o buf au).evs ++ [HwEvent.endPic, HwEvent.sync])⟩
         else
           ⟨false, (submitLoop o buf au).err,
            HwEvent.beginPic :: ((submitPicParamsM o).evs ++
              (submitLoop o buf au).evs ++ [HwEvent.endPic])⟩
       else
         ⟨false, (submitPicParamsM o).err,
          HwEvent.beginPic :: ((submitPicParamsM o).evs ++ [HwEvent.endPic])⟩) := by
  unfold decodeFrameInternal
  rw [hb]

theorem internal_endPic_of_fail {o : HwOracle} {buf : Array Nat}
    {au : List (Nat × Nat)} (hb : o.beginPicture = none)
    (hfail : (decodeFrameInternal o buf au).ok = false) :
    HwEvent.endPic ∈ (decodeFrameInternal o buf au).evs := by
  rw [internal_eq_of_begin_none o buf au hb] at hfail ⊢
  by_cases hrp : (submitPicParamsM o).ok
  · rw [if_pos hrp] at hfail ⊢
    by_cases hrl : (submitLoop o buf au).ok
    · rw [if_pos hrl] at hfail ⊢
      cases hend : o.endPicture with
      | some s => simp
      | none =>
        rw [hend] at hfail
        cases hsy : o.syncSurface with
        | some s => simp
        | none =>
          rw [hsy] at hfail
          simp at hfail
    · rw [if_neg hrl]
      simp
  · rw [if_neg hrp]
    simp

theorem submitLoop_append_zero (o : HwOracle) (buf : Array Nat) {z : Nat × Nat}
    (hz : z.2 - z.1 = 0) : ∀ au, submitLoop o buf (au ++ [z]) = submitLoop o buf au := by
  have hone : submitOneNAL o buf z = ⟨true, none, []⟩ := by
    unfold submitOneNAL
    rw [if_pos hz]
  intro au
  induction au with
  | nil =>
    show submitLoop o buf [z] = submitLoop o buf []
    simp [submitLoop, hone]
  | cons a rest ih =>
    show submitLoop o buf (a :: (rest ++ [z])) = submitLoop o buf (a :: rest)
    simp only [submitLoop, ih]

theorem internal_append_zero (o : HwOracle) (buf : Array Nat) {z : Nat × Nat}
    (hz : z.2 - z.1 = 0) (au : List (Nat × Nat)) :
    decodeFrameInternal o buf (au ++ [z]) = decodeFrameInternal o buf au := by
  unfold decodeFrameInternal
  rw [submitLoop_append_zero o buf hz]

/-! ## Surface-exporter lemmas -/

theorem length_flatMap_rows (d : List Nat) (off pitch w : Nat) : ∀ n : Nat,
    ((List.range n).flatMap (fun i => rowBytes d (off + i * pitch) w)).length
      = n * w := by
  intro n
  induction n with
  | zero => simp
  | succ m ih =>
    rw [List.range_succ, List.flatMap_append, List.length_append, ih]
    simp [rowBytes, Nat.succ_mul]

theorem yBytes_length (img : VAImage) :
    (yBytes img).length = img.height * img.width :=
  length_flatMap_rows img.data img.offset0 img.pitch0 img.width img.height

theorem uvBytes_length (img : VAImage) :
    (uvBytes img).length = (img.height / 2) * img.width :=
  length_flatMap_rows img.data img.offset1 img.pitch1 img.width (img.height / 2)

theorem yuv_length (img : VAImage) :
    (yBytes img ++ uvBytes img).length = writtenLen img := by
  rw [List.length_append, yBytes_length, uvBytes_length]
  unfold writtenLen
  ring

theorem writtenLen_le (img : VAImage) : writtenLen img ≤ nv12Size img := by
  unfold writtenLen nv12Size
  have h1 : img.width * (img.height / 2) * 2 ≤ img.width * img.height := by
    calc img.width * (img.height / 2) * 2 = img.width * (img.height / 2 * 2) := by ring
    _ ≤ img.width * img.height :=
        Nat.mul_le_mul_left _ (Nat.div_mul_le_self _ _)
  have h3 : img.width * (img.height / 2) ≤ img.width * img.height / 2 :=
    (Nat.le_div_iff_mul_le (by norm_num)).mpr h1
  have h2 : img.width * img.height * 3
      = img.width * img.height + img.width * img.height * 2 := by ring
  rw [h2, Nat.add_mul_div_right _ _ (by norm_num : (0:Nat) < 2)]
  omega

theorem writeFrame_parts (img : VAImage) (st : List Nat) :
    writeFrame img st = (yBytes img ++ uvBytes img) ++ st.drop (writtenLen img) := by
  unfold writeFrame
  rw [List.append_assoc]

theorem drop_writeFrame (img : VAImage) (st : List Nat) :
    (writeFrame img st).drop (writtenLen img) = st.drop (writtenLen img) := by
  rw [writeFrame_parts]
  have h := List.drop_left (yBytes img ++ uvBytes img) (st.drop (writtenLen img))
  rw [yuv_length] at h
  rw [h]

theorem writeFrame_idem (img : VAImage) (st : List Nat) :
    writeFrame img (writeFrame img st) = writeFrame img st := by
  rw [writeFrame_parts img (writeFrame img st), drop_writeFrame, writeFrame_parts]

theorem take_writeFrame (img : VAImage) (st : List Nat) :
    (writeFrame img st).take (writtenLen img) = yBytes img ++ uvBytes img := by
  rw [writeFrame_parts]
  have h := List.take_left (yBytes img ++ uvBytes img) (st.drop (writtenLen img))
  rw [yuv_length] at h
  rw [h]

theorem writeFrame_length (img : VAImage) {st : List Nat}
    (h : writtenLen img ≤ st.length) : (writeFrame img st).length = st.length := by
  rw [writeFrame_parts, List.length_append, yuv_length, List.length_drop]
  omega

theorem copiedStore_length (img : VAImage) (cap : Nat) {store : List Nat}
    (h : store.length = cap) :
    (copiedStore img cap store).length = max cap (nv12Size img) := by
  unfold copiedStore
  by_cases hlt : cap < nv12Size img
  · rw [if_pos hlt, writeFrame_length img (by simp [writtenLen_le img])]
    simp
    omega
  · rw [if_neg hlt, writeFrame_length img (by rw [h]; have := writtenLen_le img; omega)]
    omega

/-! ## Decode-step case lemmas -/

theorem decode_not_ready (cfg : DecCfg) (st : DecState) (h : st.ready = false) :
    decodeNextFrame cfg st = (none, { st with err := "Decoder not initialized" }) := by
  unfold decodeNextFrame
  rw [h]
  rfl

theorem decode_eos (cfg : DecCfg) (st : DecState) (hr : st.ready = true)
    (ha : (assembleAU cfg.buf st.pos).1 = none) :
    decodeNextFrame cfg st = (none, { st with pos := (assembleAU cfg.buf st.pos).2 }) := by
  unfold decodeNextFrame
  rw [hr, if_pos rfl, ha]

theorem decode_internal_fail (cfg : DecCfg) (st : DecState) {au : List (Nat × Nat)}
    {k : AUEnd} (hr : st.ready = true)
    (ha : (assembleAU cfg.buf st.pos).1 = some (au, k))
    (hi : (decodeFrameInternal cfg.hw cfg.buf au).ok = false) :
    decodeNextFrame cfg st =
      (none,
       { st with
         pos := (assembleAU cfg.buf st.pos).2,
         err := ((decodeFrameInternal cfg.hw cfg.buf au).err).getD st.err }) := by
  unfold decodeNextFrame
  rw [hr, if_pos rfl, ha]
  show (if (decodeFrameInternal cfg.hw cfg.buf au).ok then _ else _) = _
  rw [hi]
  rfl

theorem decode_internal_ok (cfg : DecCfg) (st : DecState) {au : List (Nat × Nat)}
    {k : AUEnd} (hr : st.ready = true)
    (ha : (assembleAU cfg.buf st.pos).1 = some (au, k))
    (hi : (decodeFrameInternal cfg.hw cfg.buf au).ok = true) :
    decodeNextFrame cfg st =
      getSurface cfg { st with pos := (assembleAU cfg.buf st.pos).2 } := by
  unfold decodeNextFrame
  rw [hr, if_pos rfl, ha]
  show (if (decodeFrameInternal cfg.hw cfg.buf au).ok then _ else _) = _
  rw [hi]
  rfl

theorem getSurface_cases (cfg : DecCfg) (st : DecState) :
    getSurface cfg st = mapAndCopy cfg st ∨
    ∃ msg, getSurface cfg st = (none, { st with err := msg }) := by
  unfold getSurface
  by_cases hd : cfg.hw.deriveOk
  · rw [if_pos hd]
    exact Or.inl rfl
  · rw [if_neg hd]
    cases hc : cfg.hw.createImage with
    | some s => exact Or.inr ⟨"Cannot create image: " ++ s, rfl⟩
    | none =>
      cases hg : cfg.hw.getImage with
      | some s => exact Or.inr ⟨"Cannot get image: " ++ s, rfl⟩
      | none => exact Or.inl rfl

theorem mapAndCopy_cases (cfg : DecCfg) (st : DecState) :
    (∃ msg, cfg.hw.mapBuffer = some msg ∧
      mapAndCopy cfg st = (none, { st with err := "Cannot map buffer: " ++ msg })) ∨
    (cfg.hw.mapBuffer = none ∧
      mapAndCopy cfg st =
        (some ⟨(copiedStore cfg.hw.image st.cap st.store).take (nv12Size cfg.hw.image),
               cfg.hw.image.width, cfg.hw.image.height, nv12Size cfg.hw.image⟩,
         { st with
           cap := if st.cap < nv12Size cfg.hw.image then nv12Size cfg.hw.image
                  else st.cap,
           store := copiedStore cfg.hw.image st.cap st.store,
           surf := (st.surf + 1) % cfg.numSurfaces })) := by
  unfold mapAndCopy
  cases hm : cfg.hw.mapBuffer with
  | some s => exact Or.inl ⟨s, rfl, rfl⟩
  | none => exact Or.inr ⟨rfl, rfl⟩

theorem decode_none_pres (cfg : DecCfg) (st : DecState) {st' : DecState}
    (h : decodeNextFrame cfg st = (none, st')) :
    st'.surf = st.surf ∧ st'.cap = st.cap ∧ st'.store = st.store ∧
      st'.ready = st.ready := by
  by_cases hr : st.ready
  · rcases ha : (assembleAU cfg.buf st.pos).1 with _ | ⟨au, k⟩
    · rw [decode_eos cfg st (by simpa using hr) ha] at h
      simp only [Prod.mk.injEq, true_and] at h
      rw [← h]
      exact ⟨rfl, rfl, rfl, rfl⟩
    · by_cases hi : (decodeFrameInternal cfg.hw cfg.buf au).ok
      · rw [decode_internal_ok cfg st (by simpa using hr) ha (by simpa using hi)] at h
        rcases getSurface_cases cfg { st with pos := (assembleAU cfg.buf st.pos).2 }
          with hgs | ⟨msg, hgs⟩
        · rw [hgs] at h
          rcases mapAndCopy_cases cfg { st with pos := (assembleAU cfg.buf st.pos).2 }
            with ⟨m, _, hmc⟩ | ⟨_, hmc⟩
          · rw [hmc] at h
            simp only [Prod.mk.injEq, true_and] at h
            rw [← h]
            exact ⟨rfl, rfl, rfl, rfl⟩
          · rw [hmc] at h
            simp at h
        · rw [hgs] at h
          simp only [Prod.mk.injEq, true_and] at h
          rw [← h]
          exact ⟨rfl, rfl, rfl, rfl⟩
      · rw [decode_internal_fail cfg st (by simpa using hr) ha (by simpa using hi)] at h
        simp only [Prod.mk.injEq, true_and] at h
        rw [← h]
        exact ⟨rfl, rfl, rfl, rfl⟩
  · rw [decode_not_ready cfg st (by simpa using hr)] at h
    simp only [Prod.mk.injEq, true_and] at h
    rw [← h]
    exact ⟨rfl, rfl, rfl, rfl⟩

theorem decode_some_spec (cfg : DecCfg) (st : DecState) {f : Frame} {st' : DecState}
    (h : decodeNextFrame cfg st = (some f, st')) :
    st.ready = true ∧ cfg.hw.mapBuffer = none ∧
    f = ⟨(copiedStore cfg.hw.image st.cap st.store).take (nv12Size cfg.hw.image),
         cfg.hw.image.width, cfg.hw.image.height, nv12Size cfg.hw.image⟩ ∧
    st' = { st with
            pos := (assembleAU cfg.buf st.pos).2,
            cap := if st.cap < nv12Size cfg.hw.image then nv12Size cfg.hw.image
                   else st.cap,
            store := copiedStore cfg.hw.image st.cap st.store,
            surf := (st.surf + 1) % cfg.numSurfaces } := by
  by_cases hr : st.ready
  · rcases ha : (assembleAU cfg.buf st.pos).1 with _ | ⟨au, k⟩
    · rw [decode_eos cfg st (by simpa using hr) ha] at h
      simp at h
    · by_cases hi : (decodeFrameInternal cfg.hw cfg.buf au).ok
      · rw [decode_internal_ok cfg st (by simpa using hr) ha (by simpa using hi)] at h
        rcases getSurface_cases cfg { st with pos := (assembleAU cfg.buf st.pos).2 }
          with hgs | ⟨msg, hgs⟩
        · rw [hgs] at h
          rcases mapAndCopy_cases cfg { st with pos := (assembleAU cfg.buf st.pos).2 }
            with ⟨m, _, hmc⟩ | ⟨hm, hmc⟩
          · rw [hmc] at h
            simp at h
          · rw [hmc] at h
            simp only [Prod.mk.injEq, Option.some.injEq] at h
            obtain ⟨hf, hst⟩ := h
            exact ⟨by simpa using hr, hm, hf.symm, hst.symm⟩
        · rw [hgs] at h
          simp at h
      · rw [decode_internal_fail cfg st (by simpa using hr) ha (by simpa using hi)] at h
        simp at h
  · rw [decode_not_ready cfg st (by simpa using hr)] at h
    simp at h

theorem canon_copied (img : VAImage) :
    copiedStore img (nv12Size img) (canonStore img) = copiedStore img 0 [] := by
  unfold copiedStore canonStore
  rw [if_neg (lt_irrefl _)]
  by_cases hn : (0:Nat) < nv12Size img
  · rw [if_pos hn, writeFrame_idem]
  · rw [if_neg hn]
    have h0 : nv12Size img = 0 := by omega
    rw [h0]
    exact writeFrame_idem img []

theorem copiedStore_self (img : VAImage) {cap : Nat} {store : List Nat}
    (hcs : cap = 0 ∧ store = [] ∨ cap = nv12Size img ∧ store = canonStore img) :
    copiedStore img cap store = copiedStore img 0 [] := by
  rcases hcs with ⟨rfl, rfl⟩ | ⟨rfl, rfl⟩
  · rfl
  · exact canon_copied img

theorem copiedStore_canon (img : VAImage) {cap : Nat} {store : List Nat}
    (hcs : cap = 0 ∧ store = [] ∨ cap = nv12Size img ∧ store = canonStore img) :
    copiedStore img cap store = canonStore img := by
  rw [copiedStore_self img hcs]
  unfold copiedStore canonStore
  by_cases hn : (0:Nat) < nv12Size img
  · rw [if_pos hn]
  · rw [if_neg hn]
    have h0 : nv12Size img = 0 := by omega
    rw [h0]
    rfl

/-- The reachability invariant for the output buffer across `decodeNextFrame`
calls: it is still unallocated, or it holds the canonical content. -/
theorem runK_invariant (cfg : DecCfg) : ∀ k : Nat,
    (runK cfg k).ready = true ∧
    ((runK cfg k).cap = 0 ∧ (runK cfg k).store = [] ∨
     (runK cfg k).cap = nv12Size cfg.hw.image ∧
       (runK cfg k).store = canonStore cfg.hw.image) := by
  intro k
  induction k with
  | zero => exact ⟨rfl, Or.inl ⟨rfl, rfl⟩⟩
  | succ m ih =>
    obtain ⟨hready, hcs⟩ := ih
    have hrw : runK cfg (m + 1) = (decodeNextFrame cfg (runK cfg m)).2 := rfl
    rcases hres : decodeNextFrame cfg (runK cfg m) with ⟨fo, st'⟩
    rw [hrw, hres]
    cases fo with
    | none =>
      obtain ⟨_, hcap, hstore, hrd⟩ := decode_none_pres cfg (runK cfg m) hres
      show st'.ready = true ∧
        (st'.cap = 0 ∧ st'.store = [] ∨
         st'.cap = nv12Size cfg.hw.image ∧ st'.store = canonStore cfg.hw.image)
      rw [hcap, hstore, hrd]
      exact ⟨hready, hcs⟩
    | some f =>
      obtain ⟨_, _, _, hst⟩ := decode_some_spec cfg (runK cfg m) hres
      show st'.ready = true ∧
        (st'.cap = 0 ∧ st'.store = [] ∨
         st'.cap = nv12Size cfg.hw.image ∧ st'.store = canonStore cfg.hw.image)
      rw [hst]
      refine ⟨hready, Or.inr ⟨?_, ?_⟩⟩
      · show (if (runK cfg m).cap < nv12Size cfg.hw.image then nv12Size cfg.hw.image
              else (runK cfg m).cap) = nv12Size cfg.hw.image
        rcases hcs with ⟨hc, _⟩ | ⟨hc, _⟩
        · rw [hc]
          by_cases hn : (0:Nat) < nv12Size cfg.hw.image
          · rw [if_pos hn]
          · rw [if_neg hn]; omega
        · rw [hc, if_neg (lt_irrefl _)]
      · show copiedStore cfg.hw.image (runK cfg m).cap (runK cfg m).store
            = canonStore cfg.hw.image
        exact copiedStore_canon cfg.hw.image hcs

theorem getSurface_fst_eq (cfg : DecCfg) (stA stB : DecState)
    (hcs : copiedStore cfg.hw.image stA.cap stA.store
         = copiedStore cfg.hw.image stB.cap stB.store) :
    (getSurface cfg stA).1 = (getSurface cfg stB).1 := by
  unfold getSurface
  by_cases hd : cfg.hw.deriveOk
  · rw [if_pos hd, if_pos hd]
    unfold mapAndCopy
    cases hm : cfg.hw.mapBuffer with
    | some s => rfl
    | none =>
      show (some (⟨(copiedStore cfg.hw.image stA.cap stA.store).take (nv12Size cfg.hw.image),
             cfg.hw.image.width, cfg.hw.image.height, nv12Size cfg.hw.image⟩ : Frame)
            : Option Frame)
          = some ⟨(copiedStore cfg.hw.image stB.cap stB.store).take (nv12Size cfg.hw.image),
             cfg.hw.image.width, cfg.hw.image.height, nv12Size cfg.hw.image⟩
      rw [hcs]
  · rw [if_neg hd, if_neg hd]
    cases hc : cfg.hw.createImage with
    | some s => rfl
    | none =>
      cases hg : cfg.hw.getImage with
      | some s => rfl
      | none =>
        unfold mapAndCopy
        cases hm : cfg.hw.mapBuffer with
        | some s => rfl
        | none =>
          show (some (⟨(copiedStore cfg.hw.image stA.cap stA.store).take (nv12Size cfg.hw.image),
                 cfg.hw.image.width, cfg.hw.image.height, nv12Size cfg.hw.image⟩ : Frame)
                : Option Frame)
              = some ⟨(copiedStore cfg.hw.image stB.cap stB.store).take (nv12Size cfg.hw.image),
                 cfg.hw.image.width, cfg.hw.image.height, nv12Size cfg.hw.image⟩
          rw [hcs]

theorem decode_fst_eq (cfg : DecCfg) (st : DecState)
    (hready : st.ready = true) (hpos : st.pos = 0)
    (hcs : st.cap = 0 ∧ st.store = [] ∨
           st.cap = nv12Size cfg.hw.image ∧ st.store = canonStore cfg.hw.image) :
    (decodeNextFrame cfg st).1 = (decodeNextFrame cfg openedState).1 := by
  have hob : openedState.ready = true := rfl
  rcases ha : (assembleAU cfg.buf 0).1 with _ | ⟨au, k⟩
  · rw [decode_eos cfg st hready (by rw [hpos]; exact ha),
        decode_eos cfg openedState hob ha]
  · by_cases hi : (decodeFrameInternal cfg.hw cfg.buf au).ok
    · rw [decode_internal_ok cfg st hready (by rw [hpos]; exact ha) (by simpa using hi),
          decode_internal_ok cfg openedState hob ha (by simpa using hi)]
      apply getSurface_fst_eq
      show copiedStore cfg.hw.image st.cap st.store = copiedStore cfg.hw.image 0 []
      exact copiedStore_self cfg.hw.image hcs
    · rw [decode_internal_fail cfg st hready (by rw [hpos]; exact ha)
            (by simpa using hi),
          decode_internal_fail cfg openedState hob ha (by simpa using hi)]

theorem internal_evs_cons (o : HwOracle) (buf : Array Nat) (au : List (Nat × Nat)) :
    ∃ t, (decodeFrameInternal o buf au).evs = HwEvent.beginPic :: t := by
  cases hb : o.beginPicture with
  | some s =>
    unfold decodeFrameInternal
    rw [hb]
    exact ⟨[], rfl⟩
  | none =>
    rw [internal_eq_of_begin_none o buf au hb]
    by_cases hrp : (submitPicParamsM o).ok
    · rw [if_pos hrp]
      by_cases hrl : (submitLoop o buf au).ok
      · rw [if_pos hrl]
        cases he : o.endPicture with
        | some s => exact ⟨_, rfl⟩
        | none =>
          cases hs : o.syncSurface with
          | some s => exact ⟨_, rfl⟩
          | none => exact ⟨_, rfl⟩
      · rw [if_neg hrl]
        exact ⟨_, rfl⟩
    · rw [if_neg hrp]
      exact ⟨_, rfl⟩

theorem flatMap_skip_eq (buf : Array Nat) : ∀ au : List (Nat × Nat),
    (∀ nal ∈ au, nal.1 < nal.2) →
    au.flatMap (fun nal => if nal.2 - nal.1 = 0 then [] else claimSubmissions buf nal)
      = au.flatMap (claimSubmissions buf) := by
  intro au
  induction au with
  | nil => intro _; rfl
  | cons a rest ih =>
    intro hall
    rw [List.flatMap_cons, List.flatMap_cons,
        ih (fun nal h => hall nal (List.mem_cons_of_mem _ h))]
    have hz : ¬ a.2 - a.1 = 0 := by
      have := hall a (List.mem_cons_self _ _)
      omega
    rw [if_neg hz]

theorem filter_slice_internal (img : VAImage) (buf : Array Nat)
    (au : List (Nat × Nat)) :
    ((decodeFrameInternal (allOkOracle img) buf au).evs.filter isSliceEvent)
      = au.flatMap (fun nal =>
          if nal.2 - nal.1 = 0 then [] else claimSubmissions buf nal) := by
  rw [internal_allOk]
  have hA : (au.flatMap (fun nal =>
      if nal.2 - nal.1 = 0 then [] else claimSubmissions buf nal)).filter isSliceEvent
      = au.flatMap (fun nal =>
          if nal.2 - nal.1 = 0 then [] else claimSubmissions buf nal) := by
    apply List.filter_eq_self.mpr
    intro a ha
    rcases List.mem_flatMap.mp ha with ⟨nal, _, hin⟩
    by_cases hz : nal.2 - nal.1 = 0
    · rw [if_pos hz] at hin
      cases hin
    · rw [if_neg hz] at hin
      exact claimSubmissions_slice buf nal a hin
  have h1 : isSliceEvent HwEvent.beginPic = false := rfl
  have h2 : isSliceEvent HwEvent.picParams = false := rfl
  have h3 : isSliceEvent HwEvent.endPic = false := rfl
  have h4 : isSliceEvent HwEvent.sync = false := rfl
  simp only [List.filter_cons, List.filter_append, h1, h2, h3, h4,
    Bool.false_eq_true, if_false, List.filter_nil, List.nil_append, List.append_nil]
  exact hA

theorem submitOneNAL_ok {o : HwOracle} (buf : Array Nat) (nal : Nat × Nat)
    (h1 : o.createSliceParamBuf = none) (h2 : o.renderSliceParams = true)
    (h3 : o.createSliceDataBuf = none) (h4 : o.renderSliceData = true) :
    (submitOneNAL o buf nal).ok = true := by
  unfold submitOneNAL submitSliceParamsM submitSliceDataM
  rw [h1, h3]
  by_cases hz : nal.2 - nal.1 = 0
  · rw [if_pos hz]
  · rw [if_neg hz]
    by_cases ht : nalType (buf.getD nal.1 0) ≤ 9
    · rw [if_pos ht]
      simp [h2, h4]
    · rw [if_neg ht]
      by_cases hp : 32 ≤ nalType (buf.getD nal.1 0) ∧ nalType (buf.getD nal.1 0) ≤ 34
      · rw [if_pos hp]
        simp [h4]
      · rw [if_neg hp]

theorem submitLoop_ok {o : HwOracle} (buf : Array Nat)
    (h1 : o.createSliceParamBuf = none) (h2 : o.renderSliceParams = true)
    (h3 : o.createSliceDataBuf = none) (h4 : o.renderSliceData = true) :
    ∀ au : List (Nat × Nat), (submitLoop o buf au).ok = true := by
  intro au
  induction au with
  | nil => rfl
  | cons a rest ih =>
    have hone := submitOneNAL_ok buf a h1 h2 h3 h4
    simp only [submitLoop, hone, if_true]
    exact ih

/-! ## Initialization lemmas -/

theorem initVAAPI_ready (o : InitOracle) (st : ResState) :
    (initVAAPI o st).2.ready = st.ready := by
  unfold initVAAPI
  by_cases h1 : o.openDevice = true
  · rw [if_pos h1]
    by_cases h2 : o.getDisplay = true
    · rw [if_pos h2]
      cases o.initDisplay with
      | some s => rfl
      | none =>
        cases o.createConfig with
        | some s => rfl
        | none =>
          cases o.createSurfaces with
          | some s => rfl
          | none =>
            cases o.createContext with
            | some s => rfl
            | none => rfl
    · rw [if_neg h2]
  · rw [if_neg h1]

theorem initFromFile_eq (o : InitOracle) (st : ResState) (fn : String) :
    initFromFile o st fn =
      (if (initVAAPI o (cleanupSt st)).1 then
         match o.readFile with
         | none => (false, { (initVAAPI o (cleanupSt st)).2 with
                             lastError := "Cannot open file: " ++ fn })
         | some bytes =>
           if bytes.isEmpty then
             (false, { (initVAAPI o (cleanupSt st)).2 with lastError := "Empty file" })
           else (true, { (initVAAPI o (cleanupSt st)).2 with
                         fileBuf := bytes, bufferPos := 0, ready := true })
       else (false, (initVAAPI o (cleanupSt st)).2)) := by
  unfold initFromFile
  rfl

theorem initFromFile_ready_eq (o : InitOracle) (st : ResState) (fn : String) :
    (initFromFile o st fn).2.ready = (initFromFile o st fn).1 := by
  rw [initFromFile_eq]
  by_cases hok : (initVAAPI o (cleanupSt st)).1 = true
  · rw [if_pos hok]
    cases hr : o.readFile with
    | none => simp [initVAAPI_ready, cleanupSt]
    | some bytes =>
      by_cases he : bytes.isEmpty = true
      · simp [he, initVAAPI_ready, cleanupSt]
      · simp [he]
  · rw [if_neg hok]
    simp [initVAAPI_ready, cleanupSt]

theorem initFromFile_fail_ready (o : InitOracle) (st : ResState) (fn : String)
    (h : (initFromFile o st fn).1 = false) :
    (initFromFile o st fn).2.ready = false := by
  rw [initFromFile_ready_eq, h]

theorem initVAAPI_surfaces_fail (o : InitOracle) (st : ResState) (msg : String)
    (h1 : o.openDevice = true) (h2 : o.getDisplay = true)
    (h3 : o.initDisplay = none) (h4 : o.createConfig = none)
    (h5 : o.createSurfaces = some msg) :
    initVAAPI o st = (false,
      { st with fdOpen := true, displayOpen := true, configCreated := true,
                lastError := "Cannot create surfaces: " ++ msg }) := by
  unfold initVAAPI
  rw [if_pos h1, if_pos h2, h3, h4, h5]

theorem initVAAPI_all_ok (o : InitOracle) (st : ResState)
    (h1 : o.openDevice = true) (h2 : o.getDisplay = true)
    (h3 : o.initDisplay = none) (h4 : o.createConfig = none)
    (h5 : o.createSurfaces = none) (h6 : o.createContext = none) :
    initVAAPI o st = (true,
      { st with fdOpen := true, displayOpen := true, configCreated := true,
                surfacesAlloc := true, contextCreated := true }) := by
  unfold initVAAPI
  rw [if_pos h1, if_pos h2, h3, h4, h5, h6]

theorem initFromFile_ok (o : InitOracle) (st : ResState) (fn : String)
    (bs : List Nat) (h1 : o.openDevice = true) (h2 : o.getDisplay = true)
    (h3 : o.initDisplay = none) (h4 : o.createConfig = none)
    (h5 : o.createSurfaces = none) (h6 : o.createContext = none)
    (h7 : o.readFile = some bs) (h8 : bs.isEmpty = false) :
    (initFromFile o st fn).1 = true ∧ (initFromFile o st fn).2.ready = true := by
  rw [initFromFile_eq, initVAAPI_all_ok o (cleanupSt st) h1 h2 h3 h4 h5 h6, h7]
  simp [h8]

/-! ## Claim C1 -/

/-- C1 counterexample: a stream holding a single VPS NAL (type 32) and no slice
NAL.  Contrary to the claim, `decodeFrame` does not return `EndOfStream`: the
parameter-set-only access unit collected at end of stream is handed to
`decodeFrameInternal` (whose driver trace contains one slice-data submission),
and with a cooperative driver a frame is even returned. -/
theorem c1_counterexample :
    (assembleAU #[0,0,0,1,64,1] 0).1 = some ([(4, 6)], AUEnd.eof) ∧
    nalType ((#[0,0,0,1,64,1] : Array Nat).getD 4 0) = 32 ∧
    ((decodeNextFrame ⟨#[0,0,0,1,64,1],
        allOkOracle ⟨2,2,0,2,4,2,[10,20,30,40,50,60]⟩, 16⟩ openedState).1).isSome
      = true ∧
    decodeSubs ⟨#[0,0,0,1,64,1],
        allOkOracle ⟨2,2,0,2,4,2,[10,20,30,40,50,60]⟩, 16⟩ openedState
      = [HwEvent.beginPic, HwEvent.picParams, HwEvent.sliceData [64, 1],
         HwEvent.endPic, HwEvent.sync] :=
  ⟨by decide, by decide, by decide, by decide⟩

/-- C1 (amended): `decodeFrame` returns `EndOfStream` without invoking
`decodeFrameInternal` only when the NAL-collection loop collected nothing at
all: the assembler yields `none` iff no NAL whose start offset lies inside the
buffer is reachable from the cursor; every assembled access unit is nonempty;
and whenever an access unit is assembled — including one consisting only of
non-slice NAL units flushed at end of stream — the submission pipeline is
invoked (its driver-call trace is nonempty). -/
theorem c1_eos_only_when_empty :
    (∀ (buf : Array Nat) (pos : Nat),
      (assembleAU buf pos).1 = none ↔
        ∀ nal ∈ framerTrace buf pos, ¬ nal.1 < buf.size) ∧
    (∀ (buf : Array Nat) (pos : Nat) (au : List (Nat × Nat)) (k : AUEnd),
      (assembleAU buf pos).1 = some (au, k) → au ≠ []) ∧
    (∀ (cfg : DecCfg) (st : DecState),
      ((assembleAU cfg.buf st.pos).1).isSome = true → decodeSubs cfg st ≠ []) := by
  refine ⟨?_, ?_, ?_⟩
  · intro buf pos
    have h := @asmGo_none_iff buf (buf.size + 1) pos [] (by omega)
    simpa using h
  · intro buf pos au k h
    exact @asmGo_some_ne_nil buf (buf.size + 1) pos [] au k (by omega) h
  · intro cfg st h
    unfold decodeSubs
    rcases ha : (assembleAU cfg.buf st.pos).1 with _ | ⟨au, k⟩
    · rw [ha] at h
      simp at h
    · show (decodeFrameInternal cfg.hw cfg.buf au).evs ≠ []
      obtain ⟨t, ht⟩ := internal_evs_cons cfg.hw cfg.buf au
      rw [ht]
      simp

/-- Witness for C1's amended theorem at concrete inputs: a code-free stream is
`EndOfStream`, and the parameter-set-only stream reaches the pipeline. -/
theorem c1_eos_only_when_empty_witness :
    (assembleAU #[7, 7, 7, 7] 0).1 = none ∧
    decodeSubs ⟨#[0,0,0,1,64,1], allOkOracle ⟨2,2,0,2,4,2,[10,20,30,40,50,60]⟩, 16⟩
      openedState ≠ [] := by
  constructor
  · exact (c1_eos_only_when_empty.1 #[7,7,7,7] 0).mpr (by decide)
  · exact c1_eos_only_when_empty.2.2
      ⟨#[0,0,0,1,64,1], allOkOracle ⟨2,2,0,2,4,2,[10,20,30,40,50,60]⟩, 16⟩
      openedState (by decide)

/-! ## Claim C2 -/

/-- C2 counterexample: the stream `00 00 01` consists exactly of a 3-byte start
code, yet `findNextNAL` reports not-found from cursor 0, because its scan bound
`i + 3 < size` can never inspect a 3-byte code occupying the final three bytes.
This refutes "findNextNAL reports NotFound exactly when no start code remains". -/
theorem c2_counterexample :
    ((#[0,0,1] : Array Nat).getD 0 255 = 0 ∧ (#[0,0,1] : Array Nat).getD 1 255 = 0 ∧
     (#[0,0,1] : Array Nat).getD 2 255 = 1 ∧ (#[0,0,1] : Array Nat).size = 3) ∧
    findNextNAL #[0,0,1] 0 = none :=
  ⟨by decide, by decide⟩

/-- C2 (amended): for every stream that begins with a start code the scanner can
see (one starting at offset 0 with `0 + 3 < size`), repeated application of
`findNextNAL` from cursor 0 partitions the stream: the gaps before the returned
ranges are exactly the start-code byte sequences `00 00 01` / `00 00 00 01`,
the concatenation gaps-plus-ranges reconstructs the original stream, and the
final range always ends at the stream length.  `findNextNAL` reports not-found
iff no start code fitting the scan bound (`p + 3 < size`) remains at or after
the cursor — a 3-byte start code in the last three bytes is never detected —
and every returned `nal_end` is either the stream length or the position of a
detectable start code. -/
theorem c2_partition (buf : Array Nat) :
    ((3 < buf.size ∧ (startCode4 buf 0 || startCode3 buf 0) = true) →
      chainBytes buf 0 (framerTrace buf 0) = buf.toList ∧
      gapsAreCodes buf 0 (framerTrace buf 0) = true ∧
      framerTrace buf 0 ≠ []) ∧
    (∀ pos x, (framerTrace buf pos).getLast? = some x → x.2 = buf.size) ∧
    (∀ pos, findNextNAL buf pos = none ↔
      ∀ j, pos ≤ j → j + 3 < buf.size →
        (startCode4 buf j || startCode3 buf j) = false) ∧
    (∀ pos s e, findNextNAL buf pos = some (s, e) →
      e = buf.size ∨
        (e + 3 < buf.size ∧ (startCode4 buf e || startCode3 buf e) = true)) := by
  refine ⟨?_, ?_, ?_, ?_⟩
  · rintro ⟨hb, hc⟩
    have hb' : 0 + 3 < buf.size := by omega
    have hsc0 : scanStart buf 0 = some 0 := scanStart_self hb' hc
    have hne : framerTrace buf 0 ≠ [] := by
      rw [Ne, framerTrace_nil_iff]
      intro hnone
      rw [findNextNAL_none_iff] at hnone
      have hfalse := hnone 0 (Nat.le_refl 0) hb'
      rw [hc] at hfalse
      cases hfalse
    refine ⟨?_, ?_, hne⟩
    · rw [chain_segment (buf.size + 1) 0 (by omega) hne]
      exact segBytes_toList buf
    · exact gaps_codes (buf.size + 1) 0 0 (by omega) hsc0
  · intro pos x hx
    exact trace_last_end (buf.size + 1) pos (by omega) x hx
  · intro pos
    exact findNextNAL_none_iff buf pos
  · intro pos s e h
    obtain ⟨p, hsc, hp1, hp2, hs, hee⟩ := findNextNAL_char h
    rcases endScan_spec buf s with ⟨_, hsz⟩ | ⟨hsome, _, hlt⟩
    · left
      rw [hee, hsz]
    · right
      rw [hee]
      obtain ⟨_, _, hcode⟩ := scanStart_some hsome
      exact ⟨hlt, hcode⟩

/-- Witness for C2's amended theorem on a concrete two-NAL stream. -/
theorem c2_partition_witness :
    chainBytes #[0,0,1,64,255,0,0,0,1,2] 0 (framerTrace #[0,0,1,64,255,0,0,0,1,2] 0)
      = (#[0,0,1,64,255,0,0,0,1,2] : Array Nat).toList ∧
    ((9, 10) : Nat × Nat).2 = (#[0,0,1,64,255,0,0,0,1,2] : Array Nat).size := by
  constructor
  · exact ((c2_partition #[0,0,1,64,255,0,0,0,1,2]).1 (by decide)).1
  · exact (c2_partition #[0,0,1,64,255,0,0,0,1,2]).2.1 0 (9, 10) (by decide)

/-! ## Claim C3 -/

/-- C3: the submission pipeline's slice-level driver calls follow the claimed
branching exactly: for every access unit whose NAL units are nonempty, the
filtered trace of `decodeFrameInternal` under a cooperative driver equals, NAL
by NAL in order, the claim's prescription (`claimSubmissions`): types `[0,9]`
yield one slice-parameter record (size = NAL length, offset 0, all-data flag,
segment address 0) followed by one slice-data record with the raw bytes; types
`[32,34]` yield one slice-data record only; all other types yield nothing.
The second and third conjuncts check the VPS/SPS/PPS/slice scenario: the
assembler yields one access unit of four NAL units with the slice last, and the
pipeline performs exactly 3 slice-data-only submissions plus one
slice-parameter/slice-data pair. -/
theorem c3_submission_branching :
    (∀ (img : VAImage) (buf : Array Nat) (au : List (Nat × Nat)),
      (∀ nal ∈ au, nal.1 < nal.2) →
      ((decodeFrameInternal (allOkOracle img) buf au).evs.filter isSliceEvent)
        = au.flatMap (claimSubmissions buf)) ∧
    ((assembleAU #[0,0,0,1,64,1,0,0,1,66,1,0,0,1,68,1,0,0,1,2,170] 0).1
      = some ([(4, 6), (9, 11), (14, 16), (19, 21)], AUEnd.slice)) ∧
    (((decodeFrameInternal (allOkOracle ⟨2,2,0,2,4,2,[]⟩)
        #[0,0,0,1,64,1,0,0,1,66,1,0,0,1,68,1,0,0,1,2,170]
        [(4, 6), (9, 11), (14, 16), (19, 21)]).evs.filter isSliceEvent)
      = [HwEvent.sliceData [64, 1], HwEvent.sliceData [66, 1],
         HwEvent.sliceData [68, 1], HwEvent.sliceParams ⟨2, 0, true, 0⟩,
         HwEvent.sliceData [2, 170]]) := by
  refine ⟨?_, by decide, by decide⟩
  intro img buf au hall
  rw [filter_slice_internal img buf au]
  exact flatMap_skip_eq buf au hall

/-- Witness for C3 at a concrete single-NAL access unit. -/
theorem c3_submission_branching_witness :
    ((decodeFrameInternal (allOkOracle ⟨2,2,0,2,4,2,[]⟩) #[0,0,0,1,64,1]
        [(4, 6)]).evs.filter isSliceEvent)
      = [(4, 6)].flatMap (claimSubmissions #[0,0,0,1,64,1]) :=
  c3_submission_branching.1 ⟨2,2,0,2,4,2,[]⟩ #[0,0,0,1,64,1] [(4, 6)] (by decide)

/-! ## Claim C4 -/

/-- C4: `current_surface` stays in `[0, N)`, is advanced modulo `num_surfaces`
exactly once per fully successful decode-and-export call, is unchanged by every
unsuccessful call, is zeroed by `reset`, and after `K` successful cycles from
`open` equals `K mod N`. -/
theorem c4_surface_rotation (cfg : DecCfg) (hN : 0 < cfg.numSurfaces) :
    (∀ (st : DecState) (f : Frame) (st' : DecState),
      decodeNextFrame cfg st = (some f, st') →
      st'.surf = (st.surf + 1) % cfg.numSurfaces) ∧
    (∀ (st st' : DecState),
      decodeNextFrame cfg st = (none, st') → st'.surf = st.surf) ∧
    (∀ st : DecState, st.surf < cfg.numSurfaces →
      ((decodeNextFrame cfg st).2).surf < cfg.numSurfaces) ∧
    (∀ st : DecState, (resetState st).surf = 0) ∧
    (∀ K : Nat,
      (∀ j, j < K → ((decodeNextFrame cfg (runK cfg j)).1).isSome = true) →
      (runK cfg K).surf = K % cfg.numSurfaces) := by
  have hsome : ∀ (st : DecState) (f : Frame) (st' : DecState),
      decodeNextFrame cfg st = (some f, st') →
      st'.surf = (st.surf + 1) % cfg.numSurfaces := by
    intro st f st' h
    obtain ⟨_, _, _, hst⟩ := decode_some_spec cfg st h
    rw [hst]
  have hnone : ∀ (st st' : DecState),
      decodeNextFrame cfg st = (none, st') → st'.surf = st.surf := by
    intro st st' h
    exact (decode_none_pres cfg st h).1
  refine ⟨hsome, hnone, ?_, fun st => rfl, ?_⟩
  · intro st hlt
    rcases hres : decodeNextFrame cfg st with ⟨fo, st'⟩
    cases fo with
    | none =>
      have := hnone st st' hres
      simpa [this] using hlt
    | some f =>
      have := hsome st f st' hres
      show st'.surf < cfg.numSurfaces
      rw [this]
      exact Nat.mod_lt _ hN
  · intro K
    induction K with
    | zero =>
      intro _
      show (0:Nat) = 0 % cfg.numSurfaces
      rw [Nat.zero_mod]
    | succ m ih =>
      intro hall
      have hm := ih (fun j hj => hall j (by omega))
      have hs : ((decodeNextFrame cfg (runK cfg m)).1).isSome = true :=
        hall m (by omega)
      rcases hres : decodeNextFrame cfg (runK cfg m) with ⟨fo, st'⟩
      cases fo with
      | none =>
        rw [hres] at hs
        simp at hs
      | some f =>
        have hstep := hsome (runK cfg m) f st' hres
        have hK1 : runK cfg (m + 1) = st' := by
          show (decodeNextFrame cfg (runK cfg m)).2 = st'
          rw [hres]
        rw [hK1, hstep, hm, Nat.mod_add_mod]

/-- Witness for C4: after two successful decodes of a two-picture stream the
surface index is `2 mod 16`. -/
theorem c4_surface_rotation_witness :
    (runK ⟨#[0,0,0,1,2,170,0,0,0,1,2,170],
       allOkOracle ⟨2,2,0,2,4,2,[9,9,9,9,9,9,9,9]⟩, 16⟩ 2).surf = 2 % 16 :=
  (c4_surface_rotation
    ⟨#[0,0,0,1,2,170,0,0,0,1,2,170], allOkOracle ⟨2,2,0,2,4,2,[9,9,9,9,9,9,9,9]⟩, 16⟩
    (by decide)).2.2.2.2 2 (by decide)

/-! ## Claim C5 -/

/-- C5 counterexample: when `vaCreateSurfaces` is rejected, `initFromFile`
returns failure with the allocation step named and `initialized` unset — but the
device, display, and configuration handles are all still held at return, so
"every already-acquired resource is released before returning" is false. -/
theorem c5_counterexample :
    (initFromFile ⟨true, true, none, none, some "alloc failed", none, some [1]⟩
       ⟨false, false, false, false, false, [], 0, false, ""⟩ "clip.h265").1 = false ∧
    (initFromFile ⟨true, true, none, none, some "alloc failed", none, some [1]⟩
       ⟨false, false, false, false, false, [], 0, false, ""⟩ "clip.h265").2.fdOpen
      = true ∧
    (initFromFile ⟨true, true, none, none, some "alloc failed", none, some [1]⟩
       ⟨false, false, false, false, false, [], 0, false, ""⟩ "clip.h265").2.displayOpen
      = true ∧
    (initFromFile ⟨true, true, none, none, some "alloc failed", none, some [1]⟩
       ⟨false, false, false, false, false, [], 0, false, ""⟩ "clip.h265").2.configCreated
      = true ∧
    (initFromFile ⟨true, true, none, none, some "alloc failed", none, some [1]⟩
       ⟨false, false, false, false, false, [], 0, false, ""⟩ "clip.h265").2.ready
      = false ∧
    (initFromFile ⟨true, true, none, none, some "alloc failed", none, some [1]⟩
       ⟨false, false, false, false, false, [], 0, false, ""⟩ "clip.h265").2.lastError
      = "Cannot create surfaces: alloc failed" :=
  ⟨by decide, by decide, by decide, by decide, by decide, by decide⟩

/-- C5 (amended): a failing `initFromFile` returns `false` with `initialized`
unset, and each failing step stores a step-naming error — but the handles
acquired before the failing step remain held at return (shown exactly for the
`vaCreateSurfaces` step).  They are released only by the `cleanup()` that runs
at the start of the next `initFromFile` (or by `close`), which releases every
handle, so a second `open()` against a cooperative driver still succeeds. -/
theorem c5_init_failure_behavior :
    (∀ (o : InitOracle) (st : ResState) (fn : String),
      (initFromFile o st fn).1 = false → (initFromFile o st fn).2.ready = false) ∧
    (∀ st : ResState,
      (cleanupSt st).fdOpen = false ∧ (cleanupSt st).displayOpen = false ∧
      (cleanupSt st).configCreated = false ∧ (cleanupSt st).surfacesAlloc = false ∧
      (cleanupSt st).contextCreated = false) ∧
    (∀ (o : InitOracle) (st : ResState) (msg : String),
      o.openDevice = true → o.getDisplay = true → o.initDisplay = none →
      o.createConfig = none → o.createSurfaces = some msg →
      initVAAPI o st = (false,
        { st with fdOpen := true, displayOpen := true, configCreated := true,
                  lastError := "Cannot create surfaces: " ++ msg })) ∧
    (∀ (o : InitOracle) (st : ResState) (fn : String) (bs : List Nat),
      o.openDevice = true → o.getDisplay = true → o.initDisplay = none →
      o.createConfig = none → o.createSurfaces = none → o.createContext = none →
      o.readFile = some bs → bs.isEmpty = false →
      (initFromFile o st fn).1 = true ∧ (initFromFile o st fn).2.ready = true) := by
  refine ⟨?_, ?_, ?_, ?_⟩
  · intro o st fn h
    exact initFromFile_fail_ready o st fn h
  · intro st
    exact ⟨rfl, rfl, rfl, rfl, rfl⟩
  · intro o st msg h1 h2 h3 h4 h5
    exact initVAAPI_surfaces_fail o st msg h1 h2 h3 h4 h5
  · intro o st fn bs h1 h2 h3 h4 h5 h6 h7 h8
    exact initFromFile_ok o st fn bs h1 h2 h3 h4 h5 h6 h7 h8

/-- Witness for C5's amended theorem: a failed open leaves `initialized` unset,
and a second open with a cooperative driver succeeds from the leaked state. -/
theorem c5_init_failure_behavior_witness :
    (initFromFile ⟨false, true, none, none, none, none, some [1]⟩
       ⟨false, false, false, false, false, [], 0, false, ""⟩ "f").2.ready = false ∧
    (initFromFile ⟨true, true, none, none, none, none, some [1]⟩
       ⟨true, true, true, false, false, [], 0, false, "Cannot create surfaces: x"⟩
       "f").1 = true := by
  constructor
  · exact c5_init_failure_behavior.1 _ _ "f" (by decide)
  · exact (c5_init_failure_behavior.2.2.2 _ _ "f" [1] rfl rfl rfl rfl rfl rfl rfl
      (by decide)).1

/-! ## Claim C6 -/

/-- C6 counterexample: the picture-parameter `vaRenderPicture` call fails, the
pipeline reports failure — but `last_error` is left untouched (the model returns
`none`, i.e. no message is stored), so the failing step is not named.  This
refutes "each failing hardware call independently produces a failure whose
stored last-error string names the offending step". -/
theorem c6_counterexample :
    (decodeFrameInternal
        ⟨none, none, false, none, true, none, true, none, none, true, none, none,
         none, ⟨2,2,0,2,4,2,[]⟩⟩ #[] []).ok = false ∧
    (decodeFrameInternal
        ⟨none, none, false, none, true, none, true, none, none, true, none, none,
         none, ⟨2,2,0,2,4,2,[]⟩⟩ #[] []).err = none ∧
    (decodeFrameInternal
        ⟨none, none, false, none, true, none, true, none, none, true, none, none,
         none, ⟨2,2,0,2,4,2,[]⟩⟩ #[] []).evs
      = [HwEvent.beginPic, HwEvent.picParams, HwEvent.endPic] :=
  ⟨by decide, by decide, by decide⟩

/-- C6 (amended): `vaBeginPicture`, buffer-creation, `vaEndPicture` and
`vaSyncSurface` failures each store an error string naming the step with the
driver status, while `vaRenderPicture` (submission) failures return failure with
the stored error left unchanged; and whenever any step fails after a successful
`vaBeginPicture`, `vaEndPicture` is still invoked before the failure is
reported. -/
theorem c6_error_reporting :
    (∀ (o : HwOracle) (buf : Array Nat) (au : List (Nat × Nat)) (s : String),
      o.beginPicture = some s →
      decodeFrameInternal o buf au =
        ⟨false, some ("vaBeginPicture failed: " ++ s), [HwEvent.beginPic]⟩) ∧
    (∀ (o : HwOracle) (buf : Array Nat) (au : List (Nat × Nat)),
      o.beginPicture = none → (decodeFrameInternal o buf au).ok = false →
      HwEvent.endPic ∈ (decodeFrameInternal o buf au).evs) ∧
    (∀ (o : HwOracle) (buf : Array Nat) (au : List (Nat × Nat)) (s : String),
      o.beginPicture = none → o.createPicParamBuf = some s →
      (decodeFrameInternal o buf au).ok = false ∧
      (decodeFrameInternal o buf au).err
        = some ("Failed to create picture parameter buffer: " ++ s)) ∧
    (∀ (o : HwOracle) (buf : Array Nat) (au : List (Nat × Nat)),
      o.beginPicture = none → o.createPicParamBuf = none →
      o.renderPicParams = false →
      (decodeFrameInternal o buf au).ok = false ∧
      (decodeFrameInternal o buf au).err = none) ∧
    (∀ (o : HwOracle) (buf : Array Nat) (au : List (Nat × Nat)) (s : String),
      o.beginPicture = none → o.createPicParamBuf = none →
      o.renderPicParams = true → o.createSliceParamBuf = none →
      o.renderSliceParams = true → o.createSliceDataBuf = none →
      o.renderSliceData = true → o.endPicture = some s →
      (decodeFrameInternal o buf au).ok = false ∧
      (decodeFrameInternal o buf au).err = some ("vaEndPicture failed: " ++ s)) ∧
    (∀ (o : HwOracle) (buf : Array Nat) (au : List (Nat × Nat)) (s : String),
      o.beginPicture = none → o.createPicParamBuf = none →
      o.renderPicParams = true → o.createSliceParamBuf = none →
      o.renderSliceParams = true → o.createSliceDataBuf = none →
      o.renderSliceData = true → o.endPicture = none → o.syncSurface = some s →
      (decodeFrameInternal o buf au).ok = false ∧
      (decodeFrameInternal o buf au).err = some ("vaSyncSurface failed: " ++ s)) := by
  have hpp_some : ∀ (o : HwOracle) (s : String), o.createPicParamBuf = some s →
      submitPicParamsM o
        = ⟨false, some ("Failed to create picture parameter buffer: " ++ s), []⟩ := by
    intro o s h
    unfold submitPicParamsM
    rw [h]
  have hpp_none : ∀ o : HwOracle, o.createPicParamBuf = none →
      submitPicParamsM o = ⟨o.renderPicParams, none, [HwEvent.picParams]⟩ := by
    intro o h
    unfold submitPicParamsM
    rw [h]
  refine ⟨?_, ?_, ?_, ?_, ?_, ?_⟩
  · intro o buf au s hb
    unfold decodeFrameInternal
    rw [hb]
  · intro o buf au hb hfail
    exact internal_endPic_of_fail hb hfail
  · intro o buf au s hb hc
    rw [internal_eq_of_begin_none o buf au hb]
    rw [hpp_some o s hc]
    rw [if_neg (by exact Bool.noConfusion)]
    exact ⟨rfl, rfl⟩
  · intro o buf au hb hc hr
    rw [internal_eq_of_begin_none o buf au hb]
    rw [hpp_none o hc, hr]
    rw [if_neg (by exact Bool.noConfusion)]
    exact ⟨rfl, rfl⟩
  · intro o buf au s hb hc hr h1 h2 h3 h4 he
    rw [internal_eq_of_begin_none o buf au hb]
    rw [hpp_none o hc, hr]
    rw [if_pos rfl, if_pos (submitLoop_ok buf h1 h2 h3 h4 au), he]
    exact ⟨rfl, rfl⟩
  · intro o buf au s hb hc hr h1 h2 h3 h4 he hs
    rw [internal_eq_of_begin_none o buf au hb]
    rw [hpp_none o hc, hr]
    rw [if_pos rfl, if_pos (submitLoop_ok buf h1 h2 h3 h4 au), he, hs]
    exact ⟨rfl, rfl⟩

/-- Witness for C6's amended theorem: a concrete `vaBeginPicture` failure. -/
theorem c6_error_reporting_witness :
    decodeFrameInternal
        ⟨some "EBUSY", none, true, none, true, none, true, none, none, true,
         none, none, none, ⟨0,0,0,0,0,0,[]⟩⟩ #[] []
      = ⟨false, some ("vaBeginPicture failed: " ++ "EBUSY"), [HwEvent.beginPic]⟩ :=
  c6_error_reporting.1
    ⟨some "EBUSY", none, true, none, true, none, true, none, none, true,
     none, none, none, ⟨0,0,0,0,0,0,[]⟩⟩ #[] [] "EBUSY" rfl

/-! ## Claim C7 -/

/-- C7: every successfully exported frame carries `width*height*3/2` bytes
(`*out_size` equals it too), beginning with the tightly packed Y plane followed
by the packed interleaved UV plane; the backing buffer is grow-only — it is
(re)allocated exactly when the required size exceeds the current capacity, and
otherwise reused in place; unsuccessful calls leave capacity and buffer alone. -/
theorem c7_export_size (cfg : DecCfg) :
    (∀ (st : DecState) (f : Frame) (st' : DecState),
      st.store.length = st.cap →
      decodeNextFrame cfg st = (some f, st') →
      f.data.length = f.width * f.height * 3 / 2 ∧
      f.size = f.width * f.height * 3 / 2 ∧
      f.data.take (writtenLen cfg.hw.image)
        = yBytes cfg.hw.image ++ uvBytes cfg.hw.image ∧
      (st.cap < nv12Size cfg.hw.image → st'.cap = nv12Size cfg.hw.image) ∧
      (nv12Size cfg.hw.image ≤ st.cap → st'.cap = st.cap ∧
        st'.store.drop (writtenLen cfg.hw.image)
          = st.store.drop (writtenLen cfg.hw.image)) ∧
      st'.store.length = st'.cap) ∧
    (∀ (st st' : DecState), decodeNextFrame cfg st = (none, st') →
      st'.cap = st.cap ∧ st'.store = st.store) := by
  constructor
  · intro st f st' hlen h
    obtain ⟨_, _, hf, hst⟩ := decode_some_spec cfg st h
    subst hf
    subst hst
    have hn : nv12Size cfg.hw.image
        = cfg.hw.image.width * cfg.hw.image.height * 3 / 2 := rfl
    have hcl := copiedStore_length cfg.hw.image st.cap hlen
    refine ⟨?_, ?_, ?_, ?_, ?_, ?_⟩
    · show ((copiedStore cfg.hw.image st.cap st.store).take
          (nv12Size cfg.hw.image)).length
        = cfg.hw.image.width * cfg.hw.image.height * 3 / 2
      rw [List.length_take, hcl, ← hn]
      omega
    · exact hn
    · show ((copiedStore cfg.hw.image st.cap st.store).take
          (nv12Size cfg.hw.image)).take (writtenLen cfg.hw.image)
        = yBytes cfg.hw.image ++ uvBytes cfg.hw.image
      rw [List.take_take, min_eq_left (writtenLen_le cfg.hw.image)]
      unfold copiedStore
      exact take_writeFrame cfg.hw.image _
    · intro hlt
      show (if st.cap < nv12Size cfg.hw.image then nv12Size cfg.hw.image
            else st.cap) = nv12Size cfg.hw.image
      rw [if_pos hlt]
    · intro hge
      constructor
      · show (if st.cap < nv12Size cfg.hw.image then nv12Size cfg.hw.image
              else st.cap) = st.cap
        rw [if_neg (by omega)]
      · show (copiedStore cfg.hw.image st.cap st.store).drop
            (writtenLen cfg.hw.image)
          = st.store.drop (writtenLen cfg.hw.image)
        unfold copiedStore
        rw [if_neg (by omega)]
        exact drop_writeFrame cfg.hw.image st.store
    · show (copiedStore cfg.hw.image st.cap st.store).length
        = if st.cap < nv12Size cfg.hw.image then nv12Size cfg.hw.image else st.cap
      rw [hcl]
      by_cases hlt : st.cap < nv12Size cfg.hw.image
      · rw [if_pos hlt]
        omega
      · rw [if_neg hlt]
        omega
  · intro st st' h
    have hp := decode_none_pres cfg st h
    exact ⟨hp.2.1, hp.2.2.1⟩

/-- Witness for C7: a concrete one-slice stream on a 2×2 surface exports exactly
`2*2*3/2 = 6` bytes. -/
theorem c7_export_size_witness :
    (Frame.mk [1,2,3,4,5,6] 2 2 6).data.length
      = (Frame.mk [1,2,3,4,5,6] 2 2 6).width
        * (Frame.mk [1,2,3,4,5,6] 2 2 6).height * 3 / 2 :=
  ((c7_export_size
      ⟨#[0,0,0,1,2,170], allOkOracle ⟨2,2,0,2,4,2,[1,2,3,4,5,6,7,8]⟩, 16⟩).1
    openedState (Frame.mk [1,2,3,4,5,6] 2 2 6) ⟨4,1,6,[1,2,3,4,5,6],"",true⟩
    rfl (by decide)).1

/-! ## Claim C8 -/

/-- C8 counterexample: "appends every NAL unit regardless of type" is false.
`findNextNAL` returns the zero-length NAL `(10,10)` for the trailing 4-byte
start code of this stream, but the assembler drops it — the returned access unit
is `[(4,6)]` only — because a NAL whose start equals the stream length is never
pushed. -/
theorem c8_counterexample :
    findNextNAL #[0,0,0,1,64,1,0,0,0,1] 4 = some (10, 10) ∧
    (assembleAU #[0,0,0,1,64,1,0,0,0,1] 0).1 = some ([(4, 6)], AUEnd.eof) ∧
    ((10, 10) ∉ [((4:Nat), (6:Nat))]) :=
  ⟨by decide, by decide, by decide⟩

/-- C8 (amended): the derived type `(byte >> 1) & 0x3F` always lies in `[0,63]`;
the assembler appends every NAL whose start lies strictly inside the stream
(NALs starting at the stream length are skipped, not appended); an access unit
returned on the slice rule has its unique slice-type NAL last, with every
earlier element of non-slice type, and an access unit flushed at end of stream
contains no slice-type NAL at all. -/
theorem c8_assembler_shape :
    (∀ b : Nat, nalType b ≤ 63) ∧
    (∀ (buf : Array Nat) (pos : Nat) (au : List (Nat × Nat)) (k : AUEnd),
      (assembleAU buf pos).1 = some (au, k) →
      (k = AUEnd.eof →
        ∀ nal ∈ au, nal.1 < buf.size ∧ 10 ≤ nalType (buf.getD nal.1 0)) ∧
      (k = AUEnd.slice → ∃ l x, au = l ++ [x] ∧ x.1 < buf.size ∧
        nalType (buf.getD x.1 0) ≤ 9 ∧
        ∀ nal ∈ l, nal.1 < buf.size ∧ 10 ≤ nalType (buf.getD nal.1 0))) := by
  constructor
  · intro b
    exact Nat.and_le_right
  · intro buf pos au k h
    exact asmGo_shape (buf.size + 1) pos [] au k (by omega)
      (by intro nal hnal; exact absurd hnal (List.not_mem_nil nal)) h

/-- Witness for C8's amended theorem: instantiated on a stream whose single
kept NAL is a VPS flushed at end of stream. -/
theorem c8_assembler_shape_witness :
    nalType 64 ≤ 63 ∧
    ((4:Nat), (6:Nat)).1 < (#[0,0,0,1,64,1,0,0,0,1] : Array Nat).size ∧
    10 ≤ nalType ((#[0,0,0,1,64,1,0,0,0,1] : Array Nat).getD ((4:Nat), (6:Nat)).1 0) :=
  ⟨c8_assembler_shape.1 64,
   (c8_assembler_shape.2 #[0,0,0,1,64,1,0,0,0,1] 0 [(4, 6)] AUEnd.eof
      (by decide)).1 rfl (4, 6) (by decide)⟩

/-! ## Claim C9 -/

/-- C9: after any number of decode calls, `reset()` (cursor and surface index to
0, nothing released) followed by `decodeNextFrame()` selects the same access
unit, performs the same driver-call submission sequence, and returns the same
frame result (bytes, width, height, size) as the very first call after open. -/
theorem c9_reset_replay (cfg : DecCfg) (K : Nat) :
    (decodeNextFrame cfg (resetState (runK cfg K))).1
      = (decodeNextFrame cfg openedState).1 ∧
    assembleAU cfg.buf (resetState (runK cfg K)).pos
      = assembleAU cfg.buf openedState.pos ∧
    decodeSubs cfg (resetState (runK cfg K)) = decodeSubs cfg openedState ∧
    (resetState (runK cfg K)).pos = 0 ∧
    (resetState (runK cfg K)).surf = 0 := by
  have hinv := runK_invariant cfg K
  exact ⟨decode_fst_eq cfg (resetState (runK cfg K)) hinv.1 rfl hinv.2,
         rfl, rfl, rfl, rfl⟩

/-! ## Claim C10 -/

/-- C10: when two start codes are adjacent, `findNextNAL` yields a zero-length
NAL whose start byte is the leading `0x00` of the following start code, so its
derived type is a slice type and it terminates the access unit; the submission
pipeline then skips it (size 0), submitting nothing for it. -/
theorem c10_zero_length_nal (buf : Array Nat) (pos s e : Nat)
    (h : findNextNAL buf pos = some (s, e)) (hze : e = s) (hs : s < buf.size) :
    buf.getD s 0 = 0 ∧ nalType (buf.getD s 0) ≤ 9 ∧
    (∀ acc : List (Nat × Nat),
      asmGo buf (buf.size + 1) pos acc
        = (some (acc ++ [(s, e)], AUEnd.slice), s)) ∧
    (∀ o : HwOracle, submitOneNAL o buf (s, e) = ⟨true, none, []⟩) ∧
    (∀ (o : HwOracle) (au : List (Nat × Nat)),
      decodeFrameInternal o buf (au ++ [(s, e)]) = decodeFrameInternal o buf au) := by
  subst hze
  obtain ⟨p, hsc, hle, hpb, hcase, hend⟩ := findNextNAL_char h
  have hb0 : buf.getD e 0 = 0 := by
    rcases endScan_spec buf e with ⟨hnone, hsz⟩ | ⟨hsome, _, _⟩
    · rw [← hend] at hsz
      omega
    · rw [← hend] at hsome
      obtain ⟨_, _, hcode⟩ := scanStart_some hsome
      have h255 : buf.getD e 255 = 0 := by
        have hcode' : startCode4 buf e = true ∨ startCode3 buf e = true := by
          simpa using hcode
        rcases hcode' with h4 | h3
        · simp only [startCode4, Bool.and_eq_true, beq_iff_eq] at h4
          exact h4.1.1.1
        · simp only [startCode3, Bool.and_eq_true, beq_iff_eq] at h3
          exact h3.1.1
      rw [getD_irrel hs 0 255, h255]
  have ht : nalType (buf.getD e 0) ≤ 9 := by
    rw [hb0]
    decide
  refine ⟨hb0, ht, ?_, ?_, ?_⟩
  · intro acc
    rw [asmGo_eq buf acc (by omega), h]
    show (if e < buf.size then
            if nalType (buf.getD e 0) ≤ 9 then
              (some (acc ++ [(e, e)], AUEnd.slice), e)
            else asmGo buf (buf.size + 1) e (acc ++ [(e, e)])
          else asmGo buf (buf.size + 1) e acc)
        = (some (acc ++ [(e, e)], AUEnd.slice), e)
    rw [if_pos hs, if_pos ht]
  · intro o
    show (if e - e = 0 then (⟨true, none, []⟩ : StepR)
          else
            if nalType (buf.getD e 0) ≤ 9 then
              if (submitSliceParamsM o (e - e)).ok then
                ⟨(submitSliceDataM o (segBytes buf e e)).ok,
                 (submitSliceDataM o (segBytes buf e e)).err,
                 (submitSliceParamsM o (e - e)).evs
                   ++ (submitSliceDataM o (segBytes buf e e)).evs⟩
              else submitSliceParamsM o (e - e)
            else if 32 ≤ nalType (buf.getD e 0) ∧ nalType (buf.getD e 0) ≤ 34 then
              submitSliceDataM o (segBytes buf e e)
            else ⟨true, none, []⟩)
        = ⟨true, none, []⟩
    rw [if_pos (Nat.sub_self e)]
  · intro o au
    exact internal_append_zero o buf (Nat.sub_self e) au

/-- Witness for C10: the stream `00 00 01 | 00 00 01 02 AA` has adjacent start
codes; the zero-length NAL `(3,3)` terminates the access unit as a slice and is
skipped by the pipeline. -/
theorem c10_zero_length_nal_witness :
    (#[0,0,1,0,0,1,2,170] : Array Nat).getD 3 0 = 0 ∧
    asmGo #[0,0,1,0,0,1,2,170] ((#[0,0,1,0,0,1,2,170] : Array Nat).size + 1) 0 []
      = (some ([(3, 3)], AUEnd.slice), 3) ∧
    submitOneNAL (allOkOracle ⟨0,0,0,0,0,0,[]⟩) #[0,0,1,0,0,1,2,170] (3, 3)
      = ⟨true, none, []⟩ := by
  have h := c10_zero_length_nal #[0,0,1,0,0,1,2,170] 0 3 3 (by decide) rfl (by decide)
  exact ⟨h.1, by have h3 := h.2.2.1 []; simpa using h3,
         h.2.2.2.1 (allOkOracle ⟨0,0,0,0,0,0,[]⟩)⟩
